import Mathlib

/-!
Verification of the editing engine of the edot editor
(crates/editor/src/location.rs and crates/editor/src/lib.rs).

The text storage (a ropey Rope of Unicode chars) is embedded as a
List Char.  Ropey line semantics: a rope always has at least one line;
len_lines = number of line breaks + 1; rope.line(i) includes the
terminating newline; rope.line_to_char(i) is the char offset of the
start of line i.  Machine integers (usize) become Nat; the places where
the Rust code would panic (NonZeroUsize::new(0).unwrap(), out-of-range
rope indexing, remainder by zero, assert failures, todo stubs and the
explicit panic in Position::validate) are modelled with Option / dedicated
panic constructors.  Line and Column newtypes (NonZeroUsize, one-based)
become plain one-based Nat fields; the never-zero invariant reappears as
the Position.wf hypothesis in theorems.
-/

set_option maxHeartbeats 1000000

namespace Edot

/-- Models ropey Rope::line_to_char for a zero-based line index: the char
offset of the start of line l, that is the length of the shortest prefix
holding l line breaks (saturating at the text length, where ropey would
stop permitting larger indices). -/
def lineToChar : List Char → Nat → Nat
  | _, 0 => 0
  | [], _ + 1 => 0
  | c :: rest, l + 1 =>
    if c = '\n' then 1 + lineToChar rest l
    else 1 + lineToChar rest (l + 1)

/-- Models rope.line(l).len_chars(): the char count of zero-based line l,
including its terminating newline (ropey slices lines with their line
break).  Out-of-range l gives 0 where ropey would panic; theorems keep
lines in range via validity hypotheses. -/
def lineLenChars (t : List Char) (l : Nat) : Nat :=
  lineToChar t (l + 1) - lineToChar t l

/-- Models rope.len_lines(): number of line breaks plus one. -/
def lenLines (t : List Char) : Nat :=
  1 + t.count '\n'

/-- Position (location.rs): one-based line and column.  The source wraps
both in NonZeroUsize newtypes (Line, Column); the one-based values are
kept directly and the never-zero invariant is the wf predicate below. -/
structure Position where
  line : Nat
  column : Nat
  deriving Repr, DecidableEq, Inhabited

/-- The NonZeroUsize invariant of the Line / Column newtypes. -/
def Position.wf (p : Position) : Prop :=
  1 ≤ p.line ∧ 1 ≤ p.column

instance (p : Position) : Decidable p.wf :=
  instDecidableAnd

/-- Position::char_of: line start offset plus zero-based column. -/
def Position.char_of (p : Position) (t : List Char) : Nat :=
  lineToChar t (p.line - 1) + (p.column - 1)

/-- Position::is_valid: the one-based column is at most the char count of
the position's line. -/
def Position.is_valid (p : Position) (t : List Char) : Prop :=
  p.column ≤ lineLenChars t (p.line - 1)

instance (p : Position) (t : List Char) : Decidable (p.is_valid t) :=
  Nat.decLe _ _

/-- Movement (location.rs). -/
inductive Movement where
  | Left : Nat → Movement
  | Right : Nat → Movement
  | Up : Nat → Movement
  | Down : Nat → Movement
  | LineStart : Movement
  | LineEnd : Movement
  | FileStart : Movement
  | FileEnd : Movement
  deriving Repr, DecidableEq

/-- MovementError (location.rs). -/
inductive MovementError where
  | SelectionEmpty : MovementError
  | NoPrevLine : MovementError
  | NoNextLine : MovementError
  deriving Repr, DecidableEq

/-- Outcome of Position::move_to.  The Rust function mutates self and
returns Result<(), MovementError>; err carries the (possibly partially
moved) position left in self.  panic models the Rust panics reachable
from move_to (NonZeroUsize unwrap on zero and the empty-document panic in
Position::validate). -/
inductive MoveResult where
  | ok : Position → MoveResult
  | err : MovementError → Position → MoveResult
  | panic : MoveResult
  deriving Repr, DecidableEq

/-- Movement::LineEnd body: column := char count of the current line.
none models the NonZeroUsize panic when the line is empty. -/
def lineEndCol (t : List Char) (p : Position) : Option Position :=
  if lineLenChars t (p.line - 1) = 0 then none
  else some { p with column := lineLenChars t (p.line - 1) }

/-- Position::validate (the read-only validator): if the position is
invalid and its line is empty and not the first, go to the end of the
previous line; if invalid on the empty first line the source asserts the
document is empty and panics (none); if invalid on a non-empty line, snap
to LineEnd. -/
def Position.validate (p : Position) (t : List Char) : Option Position :=
  if p.is_valid t then some p
  else if lineLenChars t (p.line - 1) = 0 then
    if p.line ≠ 1 then
      lineEndCol t { p with line := p.line - 1 }
    else none
  else lineEndCol t p

/-- One iteration of the Movement::Left loop: validate, then either wrap
to the end of the previous line (Up(1) followed by LineEnd), fail with
NoPrevLine at the file start, or step the column left. -/
def leftUnit (t : List Char) (p : Position) : MoveResult :=
  match p.validate t with
  | none => .panic
  | some p =>
    if p.column = 1 then
      if p.line ≠ 1 then
        match lineEndCol t { p with line := p.line - 1 } with
        | none => .panic
        | some q => .ok q
      else .err .NoPrevLine p
    else .ok { p with column := p.column - 1 }

/-- The for loop of Movement::Left: n units, tracking the moved flag.
An error from a unit returns immediately, keeping already-applied units
(the Rust loop mutates self in place). -/
def leftLoop (t : List Char) : Nat → Bool → Position → MoveResult
  | 0, moved, p => if moved then .ok p else .err .NoPrevLine p
  | n + 1, _, p =>
    match leftUnit t p with
    | .ok q => leftLoop t n true q
    | .err e q => .err e q
    | .panic => .panic

/-- One iteration of the Movement::Right loop: validate, then either wrap
to the start of the next line (Down(1) followed by LineStart, where the
Down(1) step requires a non-last line with a non-empty successor), or
step the column right. -/
def rightUnit (t : List Char) (p : Position) : MoveResult :=
  match p.validate t with
  | none => .panic
  | some p =>
    if p.column = lineLenChars t (p.line - 1) then
      if p.line ≠ lenLines t ∧ 0 < lineLenChars t p.line then
        .ok { line := p.line + 1, column := 1 }
      else .err .NoNextLine p
    else .ok { p with column := p.column + 1 }

/-- The for loop of Movement::Right. -/
def rightLoop (t : List Char) : Nat → Bool → Position → MoveResult
  | 0, moved, p => if moved then .ok p else .err .NoNextLine p
  | n + 1, _, p =>
    match rightUnit t p with
    | .ok q => rightLoop t n true q
    | .err e q => .err e q
    | .panic => .panic

/-- The for loop of Movement::Down: step while the current line is not
the last and the next line is non-empty; break silently otherwise, and
report NoNextLine only when no step succeeded. -/
def downLoop (t : List Char) : Nat → Bool → Position → MoveResult
  | 0, moved, p => if moved then .ok p else .err .NoNextLine p
  | n + 1, moved, p =>
    if p.line ≠ lenLines t ∧ 0 < lineLenChars t p.line then
      downLoop t n true { p with line := p.line + 1 }
    else if moved then .ok p else .err .NoNextLine p

/-- Position::move_to (location.rs).  Each arm mirrors the corresponding
match arm of the source; the n = 0 early returns and the Up clamping
(n.min(self.line.zero_based())) are verbatim. -/
def Position.move_to (p : Position) (t : List Char) (m : Movement) : MoveResult :=
  match m with
  | .Left n => if n = 0 then .ok p else leftLoop t n false p
  | .Right n => if n = 0 then .ok p else rightLoop t n false p
  | .Up n =>
    if n = 0 then .ok p
    else if min n (p.line - 1) = 0 then .err .NoPrevLine p
    else .ok { p with line := p.line - min n (p.line - 1) }
  | .Down n => if n = 0 then .ok p else downLoop t n false p
  | .LineStart => .ok { p with column := 1 }
  | .LineEnd =>
    match lineEndCol t p with
    | none => .panic
    | some q => .ok q
  | .FileStart => .ok { line := 1, column := 1 }
  | .FileEnd =>
    if 0 < lineLenChars t (lenLines t - 1) then .ok { line := lenLines t, column := 1 }
    else if lenLines t = 1 then .panic
    else .ok { line := lenLines t - 1, column := 1 }

/-- Selection (location.rs): anchor and drag cursor.  The second source
field is named end, a Lean keyword, so it is called stop here. -/
structure Selection where
  start : Position
  stop : Position
  deriving Repr, DecidableEq, Inhabited

/-- The derived lexicographic order of Position (line, then column). -/
def Position.posLt (p q : Position) : Prop :=
  p.line < q.line ∨ (p.line = q.line ∧ p.column < q.column)

instance (p q : Position) : Decidable (p.posLt q) :=
  instDecidableOr

/-- Selection::order: swap the endpoints when start is greater than end. -/
def Selection.order (s : Selection) : Selection :=
  if s.stop.posLt s.start then { start := s.stop, stop := s.start } else s

/-- Selection::range_of: order, then the half-open char range from the
start offset to one past the end offset (selections are inclusive of at
least one character). -/
def Selection.range_of (s : Selection) (t : List Char) : Nat × Nat :=
  ((s.order).start.char_of t, (s.order).stop.char_of t + 1)

/-- Models rope.remove(a..b).  Ropey panics when the range is out of
bounds or inverted; callers in this development establish a ≤ b ≤ length
before relying on this (History::remove_selection only ever receives a
range produced from a validated, ordered selection). -/
def ropeRemove (t : List Char) (a b : Nat) : List Char :=
  t.take a ++ t.drop b

/-- Models rope.insert(k, s) / rope.insert_char. -/
def ropeInsert (t : List Char) (k : Nat) (s : List Char) : List Char :=
  t.take k ++ s ++ t.drop k

/-- Models rope.slice(a..b).to_string(): the chars in the range. -/
def ropeSlice (t : List Char) (a b : Nat) : List Char :=
  (t.drop a).take (b - a)

/-- Edit (lib.rs): what was inserted or removed, and where.  The Rust
text field is a String; it is kept as the list of its chars, and its
UTF-8 byte size (what String::len returns) is recovered by utf8Len. -/
inductive Edit where
  | Insert : Position → List Char → Edit
  | Delete : Position → List Char → Edit
  deriving Repr, DecidableEq

/-- String::len of the Rust String holding these chars: total UTF-8 bytes. -/
def utf8Len (s : List Char) : Nat :=
  (s.map Char.utf8Size).sum

/-- History (lib.rs): the VecDeque of edits, used as a stack
(push_back / pop_back). -/
structure History where
  edits : List Edit
  deriving Repr, DecidableEq, Inhabited

/-- History::push_back. -/
def History.push_back (h : History) (e : Edit) : History :=
  ⟨h.edits ++ [e]⟩

/-- BufferData (lib.rs).  The PathBuf is kept as a String. -/
structure BufferData where
  path : Option String
  name : String
  content : List Char
  history : History
  deriving Repr, DecidableEq, Inhabited

/-- History::insert_char: insert the char at the offset of pos (computed
on the rope before insertion) and record an Insert edit whose text is the
one-char string of c. -/
def History.insert_char (h : History) (t : List Char) (p : Position) (c : Char) :
    List Char × History :=
  (ropeInsert t (p.char_of t) [c], h.push_back (.Insert p [c]))

/-- History::remove_selection: record the removed chars, remove the
selection's char range, and push a Delete edit at the selection's start
field (remove_from orders the selection before calling this). -/
def History.remove_selection (h : History) (t : List Char) (sel : Selection) :
    List Char × History :=
  let r := sel.range_of t
  (ropeRemove t r.1 r.2, h.push_back (.Delete sel.start (ropeSlice t r.1 r.2)))

/-- Outcome of History::undo: the new rope and history, the
NothingLeftToUndo signal, or a ropey out-of-range panic. -/
inductive UndoResult where
  | ok : List Char → History → UndoResult
  | nothingLeft : UndoResult
  | panic : UndoResult
  deriving Repr, DecidableEq

/-- History::undo: pop the most recent edit; for an Insert edit remove
the range pos.char_of(rope)..pos.char_of(rope) + text.len() — note that
text.len() is the UTF-8 byte length of the recorded String while
rope.remove counts chars — and for a Delete edit re-insert the recorded
text at the recorded position.  The bounds tests model the ropey panics
on out-of-range arguments. -/
def History.undo (h : History) (t : List Char) : UndoResult :=
  match h.edits.getLast? with
  | none => .nothingLeft
  | some e =>
    let h' : History := ⟨h.edits.dropLast⟩
    match e with
    | .Insert p text =>
      if p.char_of t + utf8Len text ≤ t.length then
        .ok (ropeRemove t (p.char_of t) (p.char_of t + utf8Len text)) h'
      else .panic
    | .Delete p text =>
      if p.char_of t ≤ t.length then .ok (ropeInsert t (p.char_of t) text) h'
      else .panic

/-- Position::insert_char: route the insertion through the buffer's
history. -/
def Position.insert_char (p : Position) (buf : BufferData) (c : Char) : BufferData :=
  let r := buf.history.insert_char buf.content p c
  { buf with content := r.1, history := r.2 }

/-- Position::validate_fix: like validate, but when the document has
degenerated to empty it repairs the buffer by inserting a line
terminator through the history instead of panicking.  none models the
remaining panics (the assert_eq and the LineEnd unwraps). -/
def Position.validate_fix (p : Position) (buf : BufferData) :
    Option (Position × BufferData) :=
  if p.is_valid buf.content then some (p, buf)
  else if lineLenChars buf.content (p.line - 1) = 0 then
    if p.line ≠ 1 then
      match lineEndCol buf.content { p with line := p.line - 1 } with
      | none => none
      | some q => some (q, buf)
    else if buf.content.length ≠ 0 then none
    else
      let q : Position := { line := 1, column := 1 }
      some (q, q.insert_char buf '\n')
  else
    match lineEndCol buf.content p with
    | none => none
    | some q => some (q, buf)

/-- Selection::validate: validate both endpoints against the rope. -/
def Selection.validate (s : Selection) (t : List Char) : Option Selection :=
  match s.start.validate t with
  | none => none
  | some a =>
    match s.stop.validate t with
    | none => none
    | some b => some { start := a, stop := b }

/-- Selection::validate_fix: repair both endpoints, threading the buffer
(the first repair may insert a terminator that the second sees). -/
def Selection.validate_fix (s : Selection) (buf : BufferData) :
    Option (Selection × BufferData) :=
  match s.start.validate_fix buf with
  | none => none
  | some (a, buf) =>
    match s.stop.validate_fix buf with
    | none => none
    | some (b, buf) => some ({ start := a, stop := b }, buf)

/-- Selection::remove_from: validate, order, delete the inclusive char
range through the history, collapse to the start, then validate_fix. -/
def Selection.remove_from (s : Selection) (buf : BufferData) :
    Option (Selection × BufferData) :=
  match s.validate buf.content with
  | none => none
  | some s =>
    let s := s.order
    let r := buf.history.remove_selection buf.content s
    let buf : BufferData := { buf with content := r.1, history := r.2 }
    let s : Selection := { start := s.start, stop := s.start }
    s.validate_fix buf

/-- Outcome of Selection::move_to: like MoveResult but carrying the
selection (the Rust method mutates self.end in place, so the selection
holds the partially moved cursor even on error). -/
inductive SelMoveResult where
  | ok : Selection → SelMoveResult
  | err : MovementError → Selection → SelMoveResult
  | panic : SelMoveResult
  deriving Repr, DecidableEq

/-- Selection::move_to: move the drag cursor; unless dragging, collapse
the anchor onto it. -/
def Selection.move_to (s : Selection) (t : List Char) (m : Movement)
    (should_drag : Bool) : SelMoveResult :=
  match s.stop.move_to t m with
  | .panic => .panic
  | .err e q => .err e { s with stop := q }
  | .ok q =>
    if should_drag then .ok { s with stop := q }
    else .ok { start := q, stop := q }

/-- Mode (lib.rs). -/
inductive Mode where
  | Normal : Mode
  | Insert : Mode
  | Append : Mode
  | Goto : Bool → Mode
  | Command : Mode
  deriving Repr, DecidableEq, Inhabited

/-- Importance (lib.rs). -/
inductive Importance where
  | Error : Importance
  deriving Repr, DecidableEq

/-- WindowData (lib.rs).  The TypedHandleMap of selections becomes a list
indexed by insertion order, and handle ids become list indices (the handy
arena hands out stable indices the same way for this insert-only usage). -/
structure WindowData where
  buffer : Nat
  mode : Mode
  selections : List Selection
  primary_selection : Nat
  command : String
  top : Nat
  deriving Repr, DecidableEq, Inhabited

/-- EditorData (lib.rs).  last_screen_height is the u16 injected by the
rendering layer, widened to Nat. -/
structure EditorData where
  windows : List WindowData
  buffers : List BufferData
  open_tabs : List Nat
  focused_tab : Nat
  last_screen_height : Option Nat
  pending_message : Option (Importance × String)
  want_quit : Bool
  deriving Repr, DecidableEq, Inhabited

/-- EditorAction (lib.rs). -/
inductive EditorAction where
  | PreviousTab : EditorAction
  | NextTab : EditorAction
  deriving Repr, DecidableEq

/-- BufferAction (lib.rs). -/
inductive BufferAction where
  | Undo : BufferAction
  | Redo : BufferAction
  deriving Repr, DecidableEq

/-- WindowAction (lib.rs). -/
inductive WindowAction where
  | InsertAtSelectionStart : Char → WindowAction
  | InsertAtSelectionEnd : Char → WindowAction
  | Delete : WindowAction
  | Move : Movement → WindowAction
  | ShiftStart : Movement → WindowAction
  | ShiftEnd : Movement → WindowAction
  | ScrollPageUp : WindowAction
  | ScrollPageDown : WindowAction
  | ScrollHalfPageUp : WindowAction
  | ScrollHalfPageDown : WindowAction
  | OrderSelections : WindowAction
  | SwitchToMode : Mode → WindowAction
  deriving Repr, DecidableEq

/-- CommandAction (lib.rs). -/
inductive CommandAction where
  | Character : Char → CommandAction
  | Clear : CommandAction
  | Tab : CommandAction
  | Return : CommandAction
  | Backspace : CommandAction
  deriving Repr, DecidableEq

/-- Action (lib.rs). -/
inductive Action where
  | Editor : EditorAction → Action
  | Buffer : BufferAction → Action
  | Window : WindowAction → Action
  | Command : CommandAction → Action
  deriving Repr, DecidableEq

/-- show_message (lib.rs). -/
def show_message (st : EditorData) (i : Importance) (msg : String) : EditorData :=
  { st with pending_message := some (i, msg) }

/-- quit (lib.rs). -/
def quit (st : EditorData) : EditorData :=
  { st with want_quit := true }

/-- The per-selection validation loop in undo (lib.rs); none models a
panic inside Position::validate. -/
def validateSelections (t : List Char) : List Selection → Option (List Selection)
  | [] => some []
  | s :: rest =>
    match s.validate t with
    | none => none
    | some s' => (validateSelections t rest).map fun l => s' :: l

/-- undo (lib.rs): undo the most recent edit of the buffer viewed by
window_id; on success re-validate the selections of the window found by
re-reading open_tabs[focused_tab] (the source shadows window_id there, so
only the focused window is touched); on an empty history surface the
"nothing left to undo" message.  none models the panics (out-of-range
indexing, ropey range panics, Position::validate). -/
def undo (st : EditorData) (window_id : Nat) : Option EditorData := do
  let window ← st.windows.get? window_id
  let buffer ← st.buffers.get? window.buffer
  match buffer.history.undo buffer.content with
  | .nothingLeft => some (show_message st .Error "nothing left to undo")
  | .panic => none
  | .ok t' h' =>
    let st1 := { st with
      buffers := st.buffers.set window.buffer { buffer with content := t', history := h' } }
    let wid2 ← st1.open_tabs.get? st1.focused_tab
    let w2 ← st1.windows.get? wid2
    let b2 ← st1.buffers.get? w2.buffer
    let sels ← validateSelections b2.content w2.selections
    some { st1 with windows := st1.windows.set wid2 { w2 with selections := sels } }

/-- The external file system, for the open and write commands: path to
contents. -/
abbrev Fs := List (String × List Char)

/-- A write of contents to a path, recorded instead of performed. -/
abbrev FileWrite := String × List Char

/-- Models File::open followed by Rope::from_reader (and the preceding
canonicalize): look the path up in the file system, failing like the
propagated io::Error when it is absent. -/
def fsRead (fs : Fs) (name : String) : Option (List Char) :=
  (fs.find? fun e => e.1 == name).map fun e => e.2

/-- CommandDesc (lib.rs).  run takes the file system, editor state,
focused window id (the Context) and the argument tail; it yields the new
state, the file writes performed, and the Result.  none models a panic
(the open handler indexes args[0] unconditionally). -/
structure CommandDesc where
  name : String
  aliases : List String
  description : String
  required_arguments : Nat
  run : Fs → EditorData → Nat → List String →
    Option (EditorData × List FileWrite × Except String Unit)

/-- COMMANDS (lib.rs): quit, open, write.  The open handler models
canonicalize plus File::open plus Rope::from_reader as one fsRead lookup
(the exact io::Error text is environment dependent), and otherwise
mirrors the source: new buffer, new window with one selection at the
file start, push the window onto open_tabs, focus the new tab.  The
write handler mirrors the source: fail on a pathless buffer before any
file handling, else write the whole content to the path. -/
def COMMANDS : List CommandDesc := [
  { name := "quit", aliases := ["q"], description := "quit the editor",
    required_arguments := 0,
    run := fun _fs st _w _args => some (quit st, [], .ok ()) },
  { name := "open", aliases := ["e"], description := "open a file",
    required_arguments := 1,
    run := fun fs st _w args =>
      match args.get? 0 with
      | none => none
      | some nm =>
        match fsRead fs nm with
        | none => some (st, [], .error ("failed to open " ++ nm))
        | some content =>
          let buffer : BufferData :=
            { path := some nm, name := nm, content := content, history := ⟨[]⟩ }
          let buffer_id := st.buffers.length
          let window : WindowData :=
            { buffer := buffer_id, command := "", mode := .Normal,
              selections := [{ start := ⟨1, 1⟩, stop := ⟨1, 1⟩ }],
              primary_selection := 0, top := 1 }
          let focused := st.open_tabs.length
          some ({ st with
              buffers := st.buffers ++ [buffer],
              windows := st.windows ++ [window],
              open_tabs := st.open_tabs ++ [st.windows.length],
              focused_tab := focused }, [], .ok ()) },
  { name := "write", aliases := ["w"],
    description := "write the current buffer contents to disk",
    required_arguments := 0,
    run := fun _fs st w _args =>
      match st.windows.get? w with
      | none => none
      | some win =>
        match st.buffers.get? win.buffer with
        | none => none
        | some buf =>
          match buf.path with
          | none => some (st, [], .error "cannot save a scratch buffer")
          | some p => some (st, [(p, buf.content)], .ok ()) }]

/-- run_command (lib.rs): take the command name from the first argument,
look it up by name or alias, build the Context from the focused tab and
run it.  The unknown-command text in the source is
command '<name>' doesn't exist; apostrophes are elided here. -/
def run_command (fs : Fs) (st : EditorData) (args : List String) :
    Option (EditorData × List FileWrite × Except String Unit) :=
  match args.head? with
  | none => some (st, [], .error "no command given")
  | some nm =>
    match COMMANDS.find? (fun c => c.name == nm || c.aliases.contains nm) with
    | none => some (st, [], .error ("command " ++ nm ++ " does not exist"))
    | some cmd =>
      match st.open_tabs.get? st.focused_tab with
      | none => none
      | some wid => cmd.run fs st wid args.tail

/-- The Display text of a MovementError (thiserror), as converted into an
anyhow error by the question-mark operator in do_action. -/
def movementErrorMessage : MovementError → String
  | .SelectionEmpty => "selection is empty"
  | .NoPrevLine => "no previous line"
  | .NoNextLine => "no next line"

/-- Space-separated word splitting with an accumulator (structural
recursion so that it evaluates definitionally). -/
def wsSplitAux : List Char → List Char → List String
  | [], acc => if acc.isEmpty then [] else [String.mk acc.reverse]
  | c :: rest, acc =>
    if c = ' ' then
      if acc.isEmpty then wsSplitAux rest []
      else String.mk acc.reverse :: wsSplitAux rest []
    else wsSplitAux rest (c :: acc)

/-- Simplified model of the external shlex crate's split (an out-of-scope
collaborator per the spec): whitespace tokenization, failing on the quote
and escape characters this model does not interpret.  On the empty string
it returns an empty token list, like shlex. -/
def shlexSplit (s : String) : Option (List String) :=
  if s.toList.any (fun c => c.toNat = 34 ∨ c.toNat = 39 ∨ c.toNat = 92) then none
  else some (wsSplitAux s.toList [])

/-- Outcome of one selection-scoped action step on one selection. -/
inductive StepOut where
  | ok : Selection → BufferData → StepOut
  | err : MovementError → Selection → BufferData → StepOut
  | panic : StepOut

/-- The four Scroll actions: with no known screen height the action is a
no-op; otherwise move the cursor and collapse the anchor onto it. -/
def scrollStep (mk : Nat → Movement) (height : Option Nat) (sel : Selection)
    (buf : BufferData) : StepOut :=
  match height with
  | none => .ok sel buf
  | some h =>
    match sel.stop.move_to buf.content (mk h) with
    | .panic => .panic
    | .err e q => .err e { sel with stop := q } buf
    | .ok q => .ok { start := q, stop := q } buf

/-- The per-selection body of the selection-scoped arm of do_action
(lib.rs), one match arm per action.  SwitchToMode and the non-window
actions are unreachable here (the source marks them unreachable, a
panic). -/
def doSelStep (wa : WindowAction) (height : Option Nat) (sel : Selection)
    (buf : BufferData) : StepOut :=
  match wa with
  | .InsertAtSelectionStart c => .ok sel (sel.start.insert_char buf c)
  | .InsertAtSelectionEnd c => .ok sel (sel.stop.insert_char buf c)
  | .Delete =>
    match sel.remove_from buf with
    | none => .panic
    | some (s, b) => .ok s b
  | .Move mv =>
    match sel.stop.move_to buf.content mv with
    | .panic => .panic
    | .err e q => .err e { sel with stop := q } buf
    | .ok q => .ok { start := q, stop := q } buf
  | .ShiftStart mv =>
    match sel.start.move_to buf.content mv with
    | .panic => .panic
    | .err e q => .err e { sel with start := q } buf
    | .ok q => .ok { sel with start := q } buf
  | .ShiftEnd mv =>
    match sel.stop.move_to buf.content mv with
    | .panic => .panic
    | .err e q => .err e { sel with stop := q } buf
    | .ok q => .ok { sel with stop := q } buf
  | .ScrollPageUp => scrollStep (fun h => .Up h) height sel buf
  | .ScrollPageDown => scrollStep (fun h => .Down h) height sel buf
  | .ScrollHalfPageUp => scrollStep (fun h => .Up (h / 2)) height sel buf
  | .ScrollHalfPageDown => scrollStep (fun h => .Down (h / 2)) height sel buf
  | .OrderSelections => .ok sel.order buf
  | .SwitchToMode _ => .panic

/-- The for loop over window.selections.iter_mut() in do_action: apply
the step to each selection in order, threading the buffer; an error stops
the loop at once, keeping the selections and buffer edits already
applied (the source mutates them in place before the question mark
propagates). -/
def selLoop (wa : WindowAction) (height : Option Nat) :
    List Selection → BufferData →
    Option (List Selection × BufferData × Except MovementError Unit)
  | [], buf => some ([], buf, .ok ())
  | s :: rest, buf =>
    match doSelStep wa height s buf with
    | .panic => none
    | .err e s' b' => some (s' :: rest, b', .error e)
    | .ok s' b' =>
      match selLoop wa height rest b' with
      | none => none
      | some (l, b, r) => some (s' :: l, b, r)

/-- The modulus of usize arithmetic (64-bit targets). -/
def usizeSize : Nat := 2 ^ 64

/-- do_action (lib.rs).  Tab switching uses usize arithmetic: the source
computes (focused_tab - 1) % len and (focused_tab + 1) % len, where the
subtraction underflows at 0 (a panic in debug builds; two's-complement
wrapping, modelled here, in release builds) and the remainder panics on
an empty tab list.  Redo is a todo stub that always panics.  The Return
arm empties the command line and resets the mode to Normal before
parsing (the source text for a parse failure is
failed to parse command '<command>'; apostrophes are elided here). -/
def do_action (fs : Fs) (st : EditorData) (a : Action) :
    Option (EditorData × List FileWrite × Except String Unit) :=
  match a with
  | .Editor .PreviousTab =>
    if st.open_tabs.length = 0 then none
    else some ({ st with focused_tab :=
        (st.focused_tab + (usizeSize - 1)) % usizeSize % st.open_tabs.length },
      [], .ok ())
  | .Editor .NextTab =>
    if st.open_tabs.length = 0 then none
    else some ({ st with focused_tab :=
        (st.focused_tab + 1) % usizeSize % st.open_tabs.length }, [], .ok ())
  | .Buffer .Undo =>
    match st.open_tabs.get? st.focused_tab with
    | none => none
    | some wid =>
      match undo st wid with
      | none => none
      | some st' => some (st', [], .ok ())
  | .Buffer .Redo => none
  | .Window (.SwitchToMode m) =>
    match st.open_tabs.get? st.focused_tab with
    | none => none
    | some wid =>
      match st.windows.get? wid with
      | none => none
      | some w =>
        some ({ st with windows := st.windows.set wid { w with mode := m } },
          [], .ok ())
  | .Window wa =>
    match st.open_tabs.get? st.focused_tab with
    | none => none
    | some wid =>
      match st.windows.get? wid with
      | none => none
      | some w =>
        match st.buffers.get? w.buffer with
        | none => none
        | some buf =>
          match selLoop wa st.last_screen_height w.selections buf with
          | none => none
          | some (sels, buf', res) =>
            let st1 := { st with
              windows := st.windows.set wid { w with selections := sels },
              buffers := st.buffers.set w.buffer buf' }
            match res with
            | .ok _ => some (st1, [], .ok ())
            | .error e => some (st1, [], .error (movementErrorMessage e))
  | .Command (.Character c) =>
    match st.open_tabs.get? st.focused_tab with
    | none => none
    | some wid =>
      match st.windows.get? wid with
      | none => none
      | some w =>
        some ({ st with
            windows := st.windows.set wid { w with command := w.command.push c } },
          [], .ok ())
  | .Command .Clear =>
    match st.open_tabs.get? st.focused_tab with
    | none => none
    | some wid =>
      match st.windows.get? wid with
      | none => none
      | some w =>
        some ({ st with windows := st.windows.set wid { w with command := "" } },
          [], .ok ())
  | .Command .Tab =>
    some (st, [], .ok ())
  | .Command .Return =>
    match st.open_tabs.get? st.focused_tab with
    | none => none
    | some wid =>
      match st.windows.get? wid with
      | none => none
      | some w =>
        let cmdstr := w.command
        let st1 := { st with
          windows := st.windows.set wid { w with command := "", mode := .Normal } }
        match shlexSplit cmdstr with
        | none => some (st1, [], .error ("failed to parse command " ++ cmdstr))
        | some toks => run_command fs st1 toks
  | .Command .Backspace =>
    match st.open_tabs.get? st.focused_tab with
    | none => none
    | some wid =>
      match st.windows.get? wid with
      | none => none
      | some w =>
        if w.command.isEmpty then
          some ({ st with windows := st.windows.set wid { w with mode := .Normal } },
            [], .ok ())
        else
          some ({ st with
              windows := st.windows.set wid
                { w with command := w.command.dropRight 1 } },
            [], .ok ())

/-- EditorData::new: one scratch buffer containing a single newline, one
window with one selection at the file start, focused. -/
def EditorData.new : EditorData :=
  { windows := [
      { buffer := 0, mode := .Normal,
        selections := [{ start := ⟨1, 1⟩, stop := ⟨1, 1⟩ }],
        primary_selection := 0, command := "", top := 1 }],
    buffers := [
      { path := none, name := "scratch", content := ['\n'],
        history := ⟨[]⟩ }],
    open_tabs := [0], focused_tab := 0, last_screen_height := none,
    pending_message := none, want_quit := false }

/-- Whether a movement is Up or Down (the two movements that keep the
column unchanged and so can land past the end of a shorter line). -/
def Movement.isVertical : Movement → Bool
  | .Up _ => true
  | .Down _ => true
  | _ => false

/-- The one-based index of the last non-empty line: the last line when it
is non-empty, otherwise the one before it. -/
def lastNonEmptyLine (t : List Char) : Nat :=
  if 0 < lineLenChars t (lenLines t - 1) then lenLines t else lenLines t - 1

/-- A two-window editor state sharing one buffer: window 0 (focused) has
its selection at the file start, window 1 at line 1 column 4; the
buffer content is abc followed by a newline and the history records the
initial a as the most recent insertion. -/
def stShared : EditorData :=
  { windows := [
      { buffer := 0, mode := .Normal,
        selections := [{ start := ⟨1, 1⟩, stop := ⟨1, 1⟩ }],
        primary_selection := 0, command := "", top := 1 },
      { buffer := 0, mode := .Normal,
        selections := [{ start := ⟨1, 4⟩, stop := ⟨1, 4⟩ }],
        primary_selection := 0, command := "", top := 1 }],
    buffers := [
      { path := none, name := "b", content := "abc\n".toList,
        history := ⟨[.Insert ⟨1, 1⟩ ['a']]⟩ }],
    open_tabs := [0, 1], focused_tab := 0, last_screen_height := none,
    pending_message := none, want_quit := false }

/-- The state stShared after undoing the recorded insertion: the buffer
content reverts to bc-newline with an empty history; only the focused
window 0 had its selections re-validated (unchanged here since (1,1)
stays valid); window 1 is untouched. -/
def stSharedUndone : EditorData :=
  { windows := [
      { buffer := 0, mode := .Normal,
        selections := [{ start := ⟨1, 1⟩, stop := ⟨1, 1⟩ }],
        primary_selection := 0, command := "", top := 1 },
      { buffer := 0, mode := .Normal,
        selections := [{ start := ⟨1, 4⟩, stop := ⟨1, 4⟩ }],
        primary_selection := 0, command := "", top := 1 }],
    buffers := [
      { path := none, name := "b", content := "bc\n".toList, history := ⟨[]⟩ }],
    open_tabs := [0, 1], focused_tab := 0, last_screen_height := none,
    pending_message := none, want_quit := false }

/-- A three-tab editor state focused on the first tab. -/
def stThreeTabs : EditorData :=
  { windows := [default, default, default],
    buffers := [default],
    open_tabs := [0, 1, 2], focused_tab := 0, last_screen_height := none,
    pending_message := none, want_quit := false }

/-- The initial editor state with a pending command line, in Command
mode. -/
def stCommandPending : EditorData :=
  { EditorData.new with
    windows := [
      { buffer := 0, mode := .Command,
        selections := [{ start := ⟨1, 1⟩, stop := ⟨1, 1⟩ }],
        primary_selection := 0, command := "badcmd x", top := 1 }] }

/-! Facts about the line arithmetic of the rope model. -/

theorem lineToChar_cons_newline (rest : List Char) (l : Nat) :
    lineToChar ('\n' :: rest) (l + 1) = 1 + lineToChar rest l := by
  simp [lineToChar]

theorem lineToChar_cons_other {c : Char} (hc : c ≠ '\n') (rest : List Char) (l : Nat) :
    lineToChar (c :: rest) (l + 1) = 1 + lineToChar rest (l + 1) := by
  simp [lineToChar, hc]

theorem count_cons_newline (rest : List Char) :
    ('\n' :: rest).count '\n' = rest.count '\n' + 1 := by
  simp [List.count_cons]

theorem count_cons_other {c : Char} (hc : c ≠ '\n') (rest : List Char) :
    (c :: rest).count '\n' = rest.count '\n' := by
  simp [List.count_cons, hc]

theorem lineToChar_le_length (t : List Char) (l : Nat) : lineToChar t l ≤ t.length := by
  induction t generalizing l with
  | nil => cases l <;> simp [lineToChar]
  | cons c rest ih =>
    cases l with
    | zero => simp [lineToChar]
    | succ l =>
      simp only [lineToChar, List.length_cons]
      split
      · have := ih l; omega
      · have := ih (l + 1); omega

theorem lineToChar_mono (t : List Char) {l l' : Nat} (h : l ≤ l') :
    lineToChar t l ≤ lineToChar t l' := by
  induction t generalizing l l' with
  | nil => cases l <;> cases l' <;> simp [lineToChar]
  | cons c rest ih =>
    cases l with
    | zero => simp [lineToChar]
    | succ l =>
      cases l' with
      | zero => omega
      | succ l' =>
        simp only [lineToChar]
        split
        · exact Nat.add_le_add_left (ih (Nat.le_of_succ_le_succ h)) 1
        · exact Nat.add_le_add_left (ih (by omega)) 1

theorem count_take_lineToChar (t : List Char) (l : Nat) (h : l ≤ t.count '\n') :
    (t.take (lineToChar t l)).count '\n' = l := by
  induction t generalizing l with
  | nil =>
    simp at h
    subst h
    simp [lineToChar]
  | cons c rest ih =>
    cases l with
    | zero => simp [lineToChar]
    | succ l =>
      by_cases hc : c = '\n'
      · subst hc
        rw [lineToChar_cons_newline, Nat.add_comm, List.take_succ_cons,
          List.count_cons_self]
        rw [count_cons_newline] at h
        rw [ih l (by omega)]
      · rw [lineToChar_cons_other hc, Nat.add_comm, List.take_succ_cons,
          List.count_cons_of_ne (Ne.symm hc)]
        rw [count_cons_other hc] at h
        exact ih (l + 1) h

theorem lineToChar_append (pre s : List Char) (l : Nat) (h : l ≤ pre.count '\n') :
    lineToChar (pre ++ s) l = lineToChar pre l := by
  induction pre generalizing l with
  | nil =>
    simp at h
    subst h
    simp [lineToChar]
  | cons c rest ih =>
    cases l with
    | zero => simp [lineToChar]
    | succ l =>
      by_cases hc : c = '\n'
      · subst hc
        rw [count_cons_newline] at h
        rw [List.cons_append, lineToChar_cons_newline, lineToChar_cons_newline,
          ih l (by omega)]
      · rw [count_cons_other hc] at h
        rw [List.cons_append, lineToChar_cons_other hc, lineToChar_cons_other hc,
          ih (l + 1) h]

theorem lineToChar_lt_succ (t : List Char) (l : Nat) (h : l + 1 ≤ t.count '\n') :
    lineToChar t l < lineToChar t (l + 1) := by
  induction t generalizing l with
  | nil => simp at h
  | cons c rest ih =>
    rw [List.count_cons] at h
    cases l with
    | zero =>
      simp only [lineToChar]
      split <;> omega
    | succ l =>
      simp only [lineToChar]
      by_cases hc : c = '\n'
      · simp only [if_pos hc]
        have := ih l (by simp [hc] at h; omega)
        omega
      · simp only [if_neg hc]
        have := ih (l + 1) (by simp [hc] at h; omega)
        omega

theorem lineToChar_of_count_lt (t : List Char) (l : Nat) (h : t.count '\n' < l) :
    lineToChar t l = t.length := by
  induction t generalizing l with
  | nil => cases l <;> simp [lineToChar]
  | cons c rest ih =>
    rw [List.count_cons] at h
    cases l with
    | zero => omega
    | succ l =>
      simp only [lineToChar, List.length_cons]
      by_cases hc : c = '\n'
      · simp only [if_pos hc]
        have := ih l (by simp [hc] at h; omega)
        omega
      · simp only [if_neg hc]
        have := ih (l + 1) (by simp [hc] at h; omega)
        omega

theorem lineLen_pos_of_succ_le (t : List Char) (l : Nat) (h : l + 1 ≤ t.count '\n') :
    0 < lineLenChars t l := by
  have := lineToChar_lt_succ t l h
  unfold lineLenChars
  omega

theorem count_le_of_lineLen_pos (t : List Char) (l : Nat) (h : 0 < lineLenChars t l) :
    l ≤ t.count '\n' := by
  by_contra hlt
  push_neg at hlt
  have h1 := lineToChar_of_count_lt t l hlt
  have h2 := lineToChar_of_count_lt t (l + 1) (by omega)
  unfold lineLenChars at h
  omega

theorem firstLine_pos (t : List Char) (h : t ≠ []) : 0 < lineLenChars t 0 := by
  cases t with
  | nil => exact absurd rfl h
  | cons c rest =>
    unfold lineLenChars
    simp only [lineToChar]
    split <;> omega

theorem lineLen_nil (l : Nat) : lineLenChars [] l = 0 := by
  unfold lineLenChars
  cases l <;> simp [lineToChar]

theorem count_eq_lenLines (t : List Char) : t.count '\n' = lenLines t - 1 := by
  unfold lenLines
  omega

/-! Facts about validity and Position::validate. -/

theorem valid_line_pos {p : Position} {t : List Char} (hw : p.wf) (hv : p.is_valid t) :
    0 < lineLenChars t (p.line - 1) := by
  unfold Position.is_valid at hv
  have := hw.2
  omega

theorem valid_line_le_count {p : Position} {t : List Char} (hw : p.wf)
    (hv : p.is_valid t) : p.line - 1 ≤ t.count '\n' :=
  count_le_of_lineLen_pos t _ (valid_line_pos hw hv)

theorem validate_of_valid {p : Position} {t : List Char} (hv : p.is_valid t) :
    p.validate t = some p := by
  unfold Position.validate
  rw [if_pos hv]

theorem lineEndCol_some {t : List Char} {p q : Position} (h : lineEndCol t p = some q) :
    q.line = p.line ∧ q.column = lineLenChars t (p.line - 1) ∧
      0 < lineLenChars t (p.line - 1) := by
  unfold lineEndCol at h
  split at h
  · cases h
  · cases h
    rename_i hz
    exact ⟨rfl, rfl, by omega⟩

theorem validate_cases {p q : Position} {t : List Char}
    (h : p.validate t = some q) :
    (p.is_valid t ∧ q = p) ∨
    (¬ p.is_valid t ∧ lineLenChars t (p.line - 1) = 0 ∧ p.line ≠ 1 ∧
      q.line = p.line - 1 ∧ q.column = lineLenChars t (p.line - 1 - 1) ∧
      0 < lineLenChars t (p.line - 1 - 1)) ∨
    (¬ p.is_valid t ∧ lineLenChars t (p.line - 1) ≠ 0 ∧
      q.line = p.line ∧ q.column = lineLenChars t (p.line - 1) ∧
      0 < lineLenChars t (p.line - 1)) := by
  unfold Position.validate at h
  split at h
  · exact Or.inl ⟨by assumption, by cases h; rfl⟩
  · rename_i hnv
    split at h
    · rename_i hz
      split at h
      · rename_i hl1
        obtain ⟨h1, h2, h3⟩ := lineEndCol_some h
        exact Or.inr (Or.inl ⟨hnv, hz, hl1, h1, h2, h3⟩)
      · cases h
    · rename_i hz
      obtain ⟨h1, h2, h3⟩ := lineEndCol_some h
      exact Or.inr (Or.inr ⟨hnv, hz, h1, h2, h3⟩)

theorem validate_some_valid {p q : Position} {t : List Char}
    (h : p.validate t = some q) : q.is_valid t := by
  rcases validate_cases h with ⟨hv, rfl⟩ | ⟨_, _, _, h1, h2, h3⟩ | ⟨_, _, h1, h2, h3⟩
  · exact hv
  · unfold Position.is_valid
    rw [h1, h2]
  · unfold Position.is_valid
    rw [h1, h2]

theorem validate_wf {p q : Position} {t : List Char} (hw : p.wf)
    (h : p.validate t = some q) : q.wf := by
  obtain ⟨hw1, hw2⟩ := hw
  unfold Position.wf
  rcases validate_cases h with ⟨_, rfl⟩ | ⟨_, _, hl1, h1, h2, h3⟩ | ⟨_, _, h1, h2, h3⟩
  · exact ⟨hw1, hw2⟩
  · rw [h1, h2]
    omega
  · rw [h1, h2]
    omega

/-! Preservation of validity by horizontal movement units and loops. -/

theorem leftUnit_ok {t : List Char} {p q : Position} (hw : p.wf) (hv : p.is_valid t)
    (h : leftUnit t p = .ok q) : q.wf ∧ q.is_valid t := by
  obtain ⟨hw1, hw2⟩ := hw
  have hvle : p.column ≤ lineLenChars t (p.line - 1) := hv
  unfold leftUnit at h
  rw [validate_of_valid hv] at h
  dsimp only at h
  by_cases hc : p.column = 1
  · rw [if_pos hc] at h
    by_cases hl : p.line ≠ 1
    · rw [if_pos hl] at h
      cases hle : lineEndCol t { p with line := p.line - 1 } with
      | none => rw [hle] at h; cases h
      | some r =>
        rw [hle] at h
        injection h with h
        subst h
        obtain ⟨h1, h2, h3⟩ := lineEndCol_some hle
        have h1' : r.line = p.line - 1 := h1
        have h2' : r.column = lineLenChars t (p.line - 1 - 1) := h2
        have h3' : 0 < lineLenChars t (p.line - 1 - 1) := h3
        refine ⟨⟨by omega, by omega⟩, ?_⟩
        unfold Position.is_valid
        rw [h1', h2']
    · rw [if_neg hl] at h
      cases h
  · rw [if_neg hc] at h
    injection h with h
    subst h
    constructor
    · show 1 ≤ p.line ∧ 1 ≤ p.column - 1
      omega
    · show p.column - 1 ≤ lineLenChars t (p.line - 1)
      omega

theorem rightUnit_ok {t : List Char} {p q : Position} (hw : p.wf) (hv : p.is_valid t)
    (h : rightUnit t p = .ok q) : q.wf ∧ q.is_valid t := by
  obtain ⟨hw1, hw2⟩ := hw
  have hvle : p.column ≤ lineLenChars t (p.line - 1) := hv
  unfold rightUnit at h
  rw [validate_of_valid hv] at h
  dsimp only at h
  by_cases hc : p.column = lineLenChars t (p.line - 1)
  · rw [if_pos hc] at h
    by_cases hg : p.line ≠ lenLines t ∧ 0 < lineLenChars t p.line
    · rw [if_pos hg] at h
      injection h with h
      subst h
      constructor
      · show 1 ≤ p.line + 1 ∧ (1 : Nat) ≤ 1
        omega
      · show (1 : Nat) ≤ lineLenChars t (p.line + 1 - 1)
        have he : p.line + 1 - 1 = p.line := by omega
        rw [he]
        exact hg.2
    · rw [if_neg hg] at h
      cases h
  · rw [if_neg hc] at h
    injection h with h
    subst h
    constructor
    · show 1 ≤ p.line ∧ 1 ≤ p.column + 1
      omega
    · show p.column + 1 ≤ lineLenChars t (p.line - 1)
      omega

theorem leftLoop_ok {t : List Char} (n : Nat) {m : Bool} {p q : Position}
    (hw : p.wf) (hv : p.is_valid t) (h : leftLoop t n m p = .ok q) :
    q.wf ∧ q.is_valid t := by
  induction n generalizing m p with
  | zero =>
    unfold leftLoop at h
    split at h
    · cases h
      exact ⟨hw, hv⟩
    · cases h
  | succ n ih =>
    unfold leftLoop at h
    cases hu : leftUnit t p with
    | ok r =>
      rw [hu] at h
      obtain ⟨hwr, hvr⟩ := leftUnit_ok ⟨hw.1, hw.2⟩ hv hu
      exact ih hwr hvr h
    | err e r => rw [hu] at h; cases h
    | panic => rw [hu] at h; cases h

theorem rightLoop_ok {t : List Char} (n : Nat) {m : Bool} {p q : Position}
    (hw : p.wf) (hv : p.is_valid t) (h : rightLoop t n m p = .ok q) :
    q.wf ∧ q.is_valid t := by
  induction n generalizing m p with
  | zero =>
    unfold rightLoop at h
    split at h
    · cases h
      exact ⟨hw, hv⟩
    · cases h
  | succ n ih =>
    unfold rightLoop at h
    cases hu : rightUnit t p with
    | ok r =>
      rw [hu] at h
      obtain ⟨hwr, hvr⟩ := rightUnit_ok ⟨hw.1, hw.2⟩ hv hu
      exact ih hwr hvr h
    | err e r => rw [hu] at h; cases h
    | panic => rw [hu] at h; cases h

theorem nonempty_of_valid {t : List Char} {p : Position} (hw : p.wf)
    (hv : p.is_valid t) : t ≠ [] := by
  intro hnil
  subst hnil
  have := valid_line_pos hw hv
  rw [lineLen_nil] at this
  omega

/-! Composition of the horizontal movement loops: already-applied units
stay applied when a later unit errs. -/

theorem leftLoop_one {t : List Char} (m : Bool) (p : Position) :
    leftLoop t 1 m p = leftUnit t p := by
  cases hu : leftUnit t p with
  | ok q =>
    unfold leftLoop
    rw [hu]
    unfold leftLoop
    rfl
  | err e q =>
    unfold leftLoop
    rw [hu]
  | panic =>
    unfold leftLoop
    rw [hu]

theorem rightLoop_one {t : List Char} (m : Bool) (p : Position) :
    rightLoop t 1 m p = rightUnit t p := by
  cases hu : rightUnit t p with
  | ok q =>
    unfold rightLoop
    rw [hu]
    unfold rightLoop
    rfl
  | err e q =>
    unfold rightLoop
    rw [hu]
  | panic =>
    unfold rightLoop
    rw [hu]

theorem leftLoop_succ (t : List Char) (n : Nat) (m : Bool) (p : Position) :
    leftLoop t (n + 1) m p =
      match leftUnit t p with
      | .ok q => leftLoop t n true q
      | .err e q => .err e q
      | .panic => .panic := rfl

theorem rightLoop_succ (t : List Char) (n : Nat) (m : Bool) (p : Position) :
    rightLoop t (n + 1) m p =
      match rightUnit t p with
      | .ok q => rightLoop t n true q
      | .err e q => .err e q
      | .panic => .panic := rfl

theorem leftLoop_compose {t : List Char} (a b : Nat) {m : Bool}
    {p q : Position} (h : leftLoop t a m p = .ok q) :
    leftLoop t (a + b) m p = leftLoop t b true q := by
  induction a generalizing m p with
  | zero =>
    unfold leftLoop at h
    split at h
    · injection h with h
      subst h
      rename_i hm
      rw [Nat.zero_add, hm]
    · cases h
  | succ a ih =>
    have he : a + 1 + b = (a + b) + 1 := by omega
    rw [he, leftLoop_succ]
    rw [leftLoop_succ] at h
    cases hu : leftUnit t p with
    | ok r =>
      rw [hu] at h
      dsimp only at h ⊢
      exact ih h
    | err e r =>
      rw [hu] at h
      cases h
    | panic =>
      rw [hu] at h
      cases h

theorem rightLoop_compose {t : List Char} (a b : Nat) {m : Bool}
    {p q : Position} (h : rightLoop t a m p = .ok q) :
    rightLoop t (a + b) m p = rightLoop t b true q := by
  induction a generalizing m p with
  | zero =>
    unfold rightLoop at h
    split at h
    · injection h with h
      subst h
      rename_i hm
      rw [Nat.zero_add, hm]
    · cases h
  | succ a ih =>
    have he : a + 1 + b = (a + b) + 1 := by omega
    rw [he, rightLoop_succ]
    rw [rightLoop_succ] at h
    cases hu : rightUnit t p with
    | ok r =>
      rw [hu] at h
      dsimp only at h ⊢
      exact ih h
    | err e r =>
      rw [hu] at h
      cases h
    | panic =>
      rw [hu] at h
      cases h

/-! Facts about the Down loop. -/

theorem downLoop_succ (t : List Char) (n : Nat) (m : Bool) (p : Position) :
    downLoop t (n + 1) m p =
      if p.line ≠ lenLines t ∧ 0 < lineLenChars t p.line then
        downLoop t n true { p with line := p.line + 1 }
      else if m then .ok p else .err .NoNextLine p := rfl

theorem downLoop_true_ok {t : List Char} (n : Nat) (p : Position) :
    ∃ q, downLoop t n true p = .ok q := by
  induction n generalizing p with
  | zero => exact ⟨p, rfl⟩
  | succ n ih =>
    rw [downLoop_succ]
    by_cases hg : p.line ≠ lenLines t ∧ 0 < lineLenChars t p.line
    · rw [if_pos hg]
      exact ih _
    · rw [if_neg hg]
      exact ⟨p, rfl⟩

theorem downLoop_ok_facts {t : List Char} (n : Nat) {m : Bool} {p q : Position}
    (hl : 0 < lineLenChars t (p.line - 1)) (h : downLoop t n m p = .ok q) :
    0 < lineLenChars t (q.line - 1) ∧ q.column = p.column ∧ p.line ≤ q.line := by
  induction n generalizing m p with
  | zero =>
    unfold downLoop at h
    split at h
    · injection h with h
      subst h
      exact ⟨hl, rfl, Nat.le_refl _⟩
    · cases h
  | succ n ih =>
    rw [downLoop_succ] at h
    by_cases hg : p.line ≠ lenLines t ∧ 0 < lineLenChars t p.line
    · rw [if_pos hg] at h
      have hl' : 0 < lineLenChars t ({ p with line := p.line + 1 }.line - 1) := by
        show 0 < lineLenChars t (p.line + 1 - 1)
        have he : p.line + 1 - 1 = p.line := by omega
        rw [he]
        exact hg.2
      obtain ⟨a, b, c⟩ := ih hl' h
      have c' : p.line + 1 ≤ q.line := c
      exact ⟨a, b, by omega⟩
    · rw [if_neg hg] at h
      split at h
      · injection h with h
        subst h
        exact ⟨hl, rfl, Nat.le_refl _⟩
      · cases h

theorem line_le_lastNonEmpty {t : List Char} {l : Nat}
    (h0 : 0 < lineLenChars t (l - 1)) : l ≤ lastNonEmptyLine t := by
  have hc := count_le_of_lineLen_pos t (l - 1) h0
  unfold lastNonEmptyLine lenLines
  by_cases hz : l - 1 = t.count '\n'
  · rw [if_pos]
    · omega
    · have he : 1 + t.count '\n' - 1 = t.count '\n' := by omega
      rw [he, ← hz]
      exact h0
  · split <;> omega

/-! Stability of char offsets under suffix edits, and splice algebra. -/

theorem count_take_mono (t : List Char) {a b : Nat} (h : a ≤ b) (c : Char) :
    (t.take a).count c ≤ (t.take b).count c := by
  have he : t.take a = (t.take b).take a := by
    rw [List.take_take, Nat.min_eq_left h]
  rw [he]
  exact List.Sublist.count_le (List.take_sublist _ _) c

theorem lineToChar_take_stable (t s : List Char) (l k : Nat)
    (hcount : l ≤ (t.take k).count '\n') :
    lineToChar (t.take k ++ s) l = lineToChar t l := by
  rw [lineToChar_append _ _ _ hcount]
  conv_rhs => rw [← List.take_append_drop k t]
  rw [lineToChar_append _ _ _ hcount]

theorem count_take_char_of {t : List Char} {p : Position} (hw : p.wf)
    (hv : p.is_valid t) :
    p.line - 1 ≤ (t.take (p.char_of t)).count '\n' := by
  have h1 : p.line - 1 ≤ t.count '\n' := valid_line_le_count hw hv
  have h2 : lineToChar t (p.line - 1) ≤ p.char_of t := Nat.le_add_right _ _
  have h3 := count_take_lineToChar t (p.line - 1) h1
  calc p.line - 1 = (t.take (lineToChar t (p.line - 1))).count '\n' := h3.symm
    _ ≤ (t.take (p.char_of t)).count '\n' := count_take_mono t h2 '\n'

theorem char_of_replace_suffix {t s : List Char} {p : Position} (hw : p.wf)
    (hv : p.is_valid t) :
    p.char_of (t.take (p.char_of t) ++ s) = p.char_of t := by
  show lineToChar (t.take (p.char_of t) ++ s) (p.line - 1) + (p.column - 1) =
    lineToChar t (p.line - 1) + (p.column - 1)
  rw [lineToChar_take_stable t s (p.line - 1) (p.char_of t) (count_take_char_of hw hv)]

theorem char_of_lt_lineToChar {t : List Char} {p : Position} (hw : p.wf)
    (hv : p.is_valid t) : p.char_of t < lineToChar t p.line := by
  obtain ⟨hw1, hw2⟩ := hw
  have hvle : p.column ≤ lineLenChars t (p.line - 1) := hv
  unfold lineLenChars at hvle
  have he : p.line - 1 + 1 = p.line := by omega
  rw [he] at hvle
  unfold Position.char_of
  have hm := lineToChar_mono t (show p.line - 1 ≤ p.line by omega)
  omega

theorem char_of_succ_le_length {t : List Char} {p : Position} (hw : p.wf)
    (hv : p.is_valid t) : p.char_of t + 1 ≤ t.length := by
  have h1 := char_of_lt_lineToChar hw hv
  have h2 := lineToChar_le_length t p.line
  omega

theorem char_of_mono {t : List Char} {p q : Position} (hwp : p.wf)
    (hvp : p.is_valid t) (hle : ¬ q.posLt p) : p.char_of t ≤ q.char_of t := by
  unfold Position.posLt at hle
  push_neg at hle
  obtain ⟨h1, h2⟩ := hle
  by_cases he : q.line = p.line
  · have hcol : p.column ≤ q.column := h2 he
    unfold Position.char_of
    rw [he]
    have := hwp.2
    omega
  · have hlt : p.line < q.line := by omega
    have ha := char_of_lt_lineToChar hwp hvp
    have hb : lineToChar t p.line ≤ lineToChar t (q.line - 1) :=
      lineToChar_mono t (by omega)
    have hc : lineToChar t (q.line - 1) ≤ q.char_of t := Nat.le_add_right _ _
    omega

theorem ropeRemove_length_lower {t : List Char} {a b : Nat} (ha : a ≤ t.length) :
    a ≤ (ropeRemove t a b).length := by
  unfold ropeRemove
  rw [List.length_append, List.length_take]
  omega

theorem ropeInsert_ropeRemove {t : List Char} {a b : Nat} (hab : a ≤ b)
    (hb : b ≤ t.length) :
    ropeInsert (ropeRemove t a b) a (ropeSlice t a b) = t := by
  unfold ropeInsert ropeRemove ropeSlice
  have hlen : (t.take a).length = a := by
    rw [List.length_take]
    omega
  rw [List.take_left' hlen, List.drop_left' hlen]
  have hdd : (t.drop a).drop (b - a) = t.drop b := by
    rw [List.drop_drop]
    congr 1
    omega
  calc t.take a ++ (t.drop a).take (b - a) ++ t.drop b
      = t.take a ++ ((t.drop a).take (b - a) ++ (t.drop a).drop (b - a)) := by
        rw [hdd, List.append_assoc]
    _ = t.take a ++ t.drop a := by rw [List.take_append_drop]
    _ = t := List.take_append_drop a t

theorem posLt_asymm {p q : Position} (h : p.posLt q) : ¬ q.posLt p := by
  unfold Position.posLt at *
  rcases h with h | ⟨h1, h2⟩
  · rintro (h' | ⟨h1', h2'⟩) <;> omega
  · rintro (h' | ⟨h1', h2'⟩) <;> omega

theorem order_not_lt (s : Selection) : ¬ s.order.stop.posLt s.order.start := by
  unfold Selection.order
  by_cases h : s.stop.posLt s.start
  · rw [if_pos h]
    exact posLt_asymm h
  · rw [if_neg h]
    exact h

theorem order_idem (s : Selection) : s.order.order = s.order := by
  unfold Selection.order
  by_cases h : s.stop.posLt s.start
  · rw [if_pos h, if_neg (posLt_asymm h)]
  · rw [if_neg h, if_neg h]

theorem order_endpoints (s : Selection) :
    (s.order.start = s.start ∧ s.order.stop = s.stop) ∨
    (s.order.start = s.stop ∧ s.order.stop = s.start) := by
  unfold Selection.order
  by_cases h : s.stop.posLt s.start
  · rw [if_pos h]
    exact Or.inr ⟨rfl, rfl⟩
  · rw [if_neg h]
    exact Or.inl ⟨rfl, rfl⟩

theorem content_nil_of_firstLine_zero {t : List Char}
    (h : lineLenChars t 0 = 0) : t = [] := by
  by_contra hne
  have := firstLine_pos t hne
  omega

theorem selValidate_of_valid {s : Selection} {t : List Char}
    (h1 : s.start.is_valid t) (h2 : s.stop.is_valid t) : s.validate t = some s := by
  unfold Selection.validate
  rw [validate_of_valid h1, validate_of_valid h2]

/-! Facts about validate_fix, Selection::validate and the undo
validation loop. -/

theorem validate_isSome {p : Position} {t : List Char} (hw : p.wf)
    (hl : p.line - 1 ≤ t.count '\n') (hcne : t ≠ []) :
    ∃ q, p.validate t = some q := by
  unfold Position.validate
  by_cases hv : p.is_valid t
  · rw [if_pos hv]
    exact ⟨p, rfl⟩
  · rw [if_neg hv]
    by_cases hz : lineLenChars t (p.line - 1) = 0
    · rw [if_pos hz]
      have hl1 : p.line ≠ 1 := by
        intro h1
        apply hcne
        apply content_nil_of_firstLine_zero
        rw [h1] at hz
        simpa using hz
      rw [if_pos hl1]
      have hw1 := hw.1
      have hpos : 0 < lineLenChars t (p.line - 1 - 1) := by
        apply lineLen_pos_of_succ_le
        have he : p.line - 1 - 1 + 1 = p.line - 1 := by omega
        rw [he]
        exact hl
      unfold lineEndCol
      rw [if_neg (show ¬ lineLenChars t
          (({ p with line := p.line - 1 } : Position).line - 1) = 0 from by
        show ¬ lineLenChars t (p.line - 1 - 1) = 0
        omega)]
      exact ⟨_, rfl⟩
    · rw [if_neg hz]
      unfold lineEndCol
      rw [if_neg hz]
      exact ⟨_, rfl⟩

theorem validate_fix_eq_validate {p : Position} {buf : BufferData}
    (hcne : buf.content ≠ []) :
    p.validate_fix buf = (p.validate buf.content).map fun q => (q, buf) := by
  unfold Position.validate_fix Position.validate
  by_cases hv : p.is_valid buf.content
  · rw [if_pos hv, if_pos hv]
    rfl
  · rw [if_neg hv, if_neg hv]
    by_cases hz : lineLenChars buf.content (p.line - 1) = 0
    · rw [if_pos hz, if_pos hz]
      by_cases hl1 : p.line ≠ 1
      · rw [if_pos hl1, if_pos hl1]
        cases lineEndCol buf.content { p with line := p.line - 1 } <;> rfl
      · rw [if_neg hl1, if_neg hl1]
        rw [if_pos (show buf.content.length ≠ 0 from by
          intro h0
          exact hcne (List.length_eq_zero.mp h0))]
        rfl
    · rw [if_neg hz, if_neg hz]
      cases lineEndCol buf.content p <;> rfl

theorem selValidate_some_valid {s s' : Selection} {t : List Char}
    (h : s.validate t = some s') :
    s'.start.is_valid t ∧ s'.stop.is_valid t := by
  unfold Selection.validate at h
  cases h1 : s.start.validate t with
  | none => rw [h1] at h; cases h
  | some a =>
    rw [h1] at h
    cases h2 : s.stop.validate t with
    | none => rw [h2] at h; cases h
    | some b =>
      rw [h2] at h
      injection h with h
      subst h
      exact ⟨validate_some_valid h1, validate_some_valid h2⟩

theorem validateSelections_valid {t : List Char} {l l' : List Selection}
    (h : validateSelections t l = some l') :
    ∀ s ∈ l', s.start.is_valid t ∧ s.stop.is_valid t := by
  induction l generalizing l' with
  | nil =>
    unfold validateSelections at h
    injection h with h
    subst h
    intro s hs
    cases hs
  | cons a rest ih =>
    unfold validateSelections at h
    cases h1 : a.validate t with
    | none => rw [h1] at h; cases h
    | some a' =>
      rw [h1] at h
      cases h2 : validateSelections t rest with
      | none => rw [h2] at h; cases h
      | some r' =>
        rw [h2] at h
        injection h with h
        subst h
        intro s hs
        rcases List.mem_cons.mp hs with rfl | hs
        · exact selValidate_some_valid h1
        · exact ih h2 s hs

/-! Claim theorems. -/

/-- Claim C1: inserting a character and then undoing is claimed to
restore the exact prior text for every character including multi-byte
ones.  The code computes the removal range from the UTF-8 byte length of
the recorded one-char String (String::len) while rope.remove counts
chars, so undoing the insertion of the two-byte char é into ab-newline
removes two chars — the é and the a — leaving b-newline instead of the
original text.  This theorem evaluates the code at that failing input. -/
theorem C1_insert_undo_bug_eval :
    (Position.insert_char ⟨1, 1⟩
        { path := none, name := "b", content := "ab\n".toList, history := ⟨[]⟩ }
        'é').content = "éab\n".toList ∧
    ((Position.insert_char ⟨1, 1⟩
        { path := none, name := "b", content := "ab\n".toList, history := ⟨[]⟩ }
        'é').history.undo
      (Position.insert_char ⟨1, 1⟩
        { path := none, name := "b", content := "ab\n".toList, history := ⟨[]⟩ }
        'é').content) = .ok ("b\n".toList) ⟨[]⟩ ∧
    "b\n".toList ≠ "ab\n".toList := by
  refine ⟨by decide, by decide, by decide⟩

/-- Claim C4 as frozen is false: Up and Down keep the column unchanged,
so a successful Up(1) from line 2 column 3 of a-newline-bbb-newline lands
on (1,3) with line 1 holding only two chars, and a successful Down(1)
from (1,3) of aaa-newline-b-newline lands on (2,3) with line 2 holding
two chars; both results are invalid. -/
theorem C4_counterexample :
    ((⟨2, 3⟩ : Position).wf ∧ (⟨2, 3⟩ : Position).is_valid ("a\nbbb\n".toList) ∧
      Position.move_to ⟨2, 3⟩ ("a\nbbb\n".toList) (.Up 1) = .ok ⟨1, 3⟩ ∧
      ¬ (⟨1, 3⟩ : Position).is_valid ("a\nbbb\n".toList)) ∧
    ((⟨1, 3⟩ : Position).wf ∧ (⟨1, 3⟩ : Position).is_valid ("aaa\nb\n".toList) ∧
      Position.move_to ⟨1, 3⟩ ("aaa\nb\n".toList) (.Down 1) = .ok ⟨2, 3⟩ ∧
      ¬ (⟨2, 3⟩ : Position).is_valid ("aaa\nb\n".toList)) := by
  decide

/-- Claim C4, amended: for every text snapshot, every valid well-formed
Position and every Movement other than Up and Down, a successful move_to
yields a Position valid against the same snapshot (Up and Down may leave
the unchanged column past the end of a shorter destination line). -/
theorem C4_amended (t : List Char) (p q : Position) (m : Movement)
    (hw : p.wf) (hv : p.is_valid t) (hm : m.isVertical = false)
    (h : p.move_to t m = .ok q) : q.wf ∧ q.is_valid t := by
  cases m with
  | Left n =>
    simp only [Position.move_to] at h
    by_cases hn : n = 0
    · rw [if_pos hn] at h
      injection h with h
      subst h
      exact ⟨hw, hv⟩
    · rw [if_neg hn] at h
      exact leftLoop_ok n hw hv h
  | Right n =>
    simp only [Position.move_to] at h
    by_cases hn : n = 0
    · rw [if_pos hn] at h
      injection h with h
      subst h
      exact ⟨hw, hv⟩
    · rw [if_neg hn] at h
      exact rightLoop_ok n hw hv h
  | Up n => simp [Movement.isVertical] at hm
  | Down n => simp [Movement.isVertical] at hm
  | LineStart =>
    simp only [Position.move_to] at h
    injection h with h
    subst h
    refine ⟨⟨hw.1, Nat.le_refl 1⟩, ?_⟩
    show (1 : Nat) ≤ lineLenChars t (p.line - 1)
    have := valid_line_pos hw hv
    omega
  | LineEnd =>
    simp only [Position.move_to] at h
    cases hle : lineEndCol t p with
    | none => rw [hle] at h; cases h
    | some r =>
      rw [hle] at h
      injection h with h
      subst h
      obtain ⟨h1, h2, h3⟩ := lineEndCol_some hle
      constructor
      · constructor
        · rw [h1]; exact hw.1
        · rw [h2]; omega
      · unfold Position.is_valid
        rw [h1, h2]
  | FileStart =>
    simp only [Position.move_to] at h
    injection h with h
    subst h
    have hne := nonempty_of_valid hw hv
    refine ⟨⟨Nat.le_refl 1, Nat.le_refl 1⟩, ?_⟩
    show (1 : Nat) ≤ lineLenChars t (1 - 1)
    have := firstLine_pos t hne
    simpa using this
  | FileEnd =>
    simp only [Position.move_to] at h
    by_cases h0 : 0 < lineLenChars t (lenLines t - 1)
    · rw [if_pos h0] at h
      injection h with h
      subst h
      refine ⟨⟨?_, Nat.le_refl 1⟩, ?_⟩
      · show 1 ≤ lenLines t
        unfold lenLines
        omega
      · show (1 : Nat) ≤ lineLenChars t (lenLines t - 1)
        omega
    · rw [if_neg h0] at h
      by_cases h1 : lenLines t = 1
      · rw [if_pos h1] at h
        cases h
      · rw [if_neg h1] at h
        injection h with h
        subst h
        have hc1 : 1 ≤ t.count '\n' := by
          unfold lenLines at h1
          omega
        have hpos : 0 < lineLenChars t (lenLines t - 1 - 1) := by
          apply lineLen_pos_of_succ_le
          show lenLines t - 1 - 1 + 1 ≤ t.count '\n'
          unfold lenLines
          omega
        refine ⟨⟨?_, Nat.le_refl 1⟩, ?_⟩
        · show 1 ≤ lenLines t - 1
          unfold lenLines
          omega
        · show (1 : Nat) ≤ lineLenChars t (lenLines t - 1 - 1)
          omega

/-- Witness for the amended claim C4 at a concrete input. -/
theorem C4_amended_witness :
    ((⟨1, 1⟩ : Position).wf ∧ (⟨1, 1⟩ : Position).is_valid ("ab\n".toList) ∧
      Movement.isVertical (.Right 1) = false ∧
      Position.move_to ⟨1, 1⟩ ("ab\n".toList) (.Right 1) = .ok ⟨1, 2⟩) ∧
    ((⟨1, 2⟩ : Position).wf ∧ (⟨1, 2⟩ : Position).is_valid ("ab\n".toList)) := by
  refine ⟨⟨by decide, by decide, by decide, by decide⟩, ?_⟩
  exact C4_amended ("ab\n".toList) ⟨1, 1⟩ ⟨1, 2⟩ (.Right 1) (by decide) (by decide)
    (by decide) (by decide)

/-- Claim C7 as frozen quantifies over every text snapshot, but on the
empty snapshot the last (and only) line is empty and the code computes
Line(1) - 1, whose NonZeroUsize constructor panics, so FileEnd produces
no position at all there. -/
theorem C7_counterexample :
    Position.move_to ⟨1, 1⟩ ([] : List Char) .FileEnd = .panic := by
  decide

/-- Claim C7, amended: for every NON-EMPTY text snapshot and every
starting position, FileEnd returns the last line when that line is
non-empty and otherwise the line before it, at column 1; that line is
the last non-empty line, so with a trailing empty final line the cursor
never lands on the trailing empty one. -/
theorem C7_amended (t : List Char) (p : Position) (ht : t ≠ []) :
    Position.move_to p t .FileEnd = .ok ⟨lastNonEmptyLine t, 1⟩ ∧
    0 < lineLenChars t (lastNonEmptyLine t - 1) := by
  have hlast : lenLines t = 1 → 0 < lineLenChars t (lenLines t - 1) := by
    intro h1
    rw [h1]
    simpa using firstLine_pos t ht
  by_cases h0 : 0 < lineLenChars t (lenLines t - 1)
  · constructor
    · simp only [Position.move_to]
      rw [if_pos h0]
      unfold lastNonEmptyLine
      rw [if_pos h0]
    · unfold lastNonEmptyLine
      rw [if_pos h0]
      exact h0
  · have h1 : lenLines t ≠ 1 := fun h => h0 (hlast h)
    have hc1 : 1 ≤ t.count '\n' := by
      unfold lenLines at h1
      omega
    have hpos : 0 < lineLenChars t (lenLines t - 1 - 1) := by
      apply lineLen_pos_of_succ_le
      show lenLines t - 1 - 1 + 1 ≤ t.count '\n'
      unfold lenLines
      omega
    constructor
    · simp only [Position.move_to]
      rw [if_neg h0, if_neg h1]
      unfold lastNonEmptyLine
      rw [if_neg h0]
    · unfold lastNonEmptyLine
      rw [if_neg h0]
      exact hpos

/-- Witness for the amended claim C7: on text ab-newline (whose final
line is the trailing empty line 2) FileEnd lands on line 1. -/
theorem C7_amended_witness :
    ("ab\n".toList ≠ ([] : List Char)) ∧
    Position.move_to ⟨2, 1⟩ ("ab\n".toList) .FileEnd = .ok ⟨1, 1⟩ ∧
    lastNonEmptyLine ("ab\n".toList) = 1 ∧ lenLines ("ab\n".toList) = 2 := by
  refine ⟨by decide, ?_, by decide, by decide⟩
  have h := (C7_amended ("ab\n".toList) ⟨2, 1⟩ (by decide)).1
  rw [show lastNonEmptyLine ("ab\n".toList) = 1 from by decide] at h
  exact h

/-- Claim C5: Left(n) with n at least 1 from (1,1) fails with NoPrevLine
(stated for a snapshot on which (1,1) is valid, that is a non-empty
document, since the empty-document validator panics instead); a single
Left unit at column 1 of a later line L wraps to the end of line L - 1;
and for both Left and Right, a multi-unit request that errs after j
successful units returns that error immediately with the j units still
applied (movement is not atomic across units). -/
theorem C5_left_behavior :
    (∀ (t : List Char) (n : Nat), 1 ≤ n → (⟨1, 1⟩ : Position).is_valid t →
      Position.move_to ⟨1, 1⟩ t (.Left n) = .err .NoPrevLine ⟨1, 1⟩) ∧
    (∀ (t : List Char) (L : Nat), 2 ≤ L → (⟨L, 1⟩ : Position).is_valid t →
      Position.move_to ⟨L, 1⟩ t (.Left 1) = .ok ⟨L - 1, lineLenChars t (L - 2)⟩) ∧
    (∀ (t : List Char) (j : Nat) (p q q' : Position) (e : MovementError), 1 ≤ j →
      Position.move_to p t (.Left j) = .ok q →
      Position.move_to q t (.Left 1) = .err e q' →
      Position.move_to p t (.Left (j + 1)) = .err e q') ∧
    (∀ (t : List Char) (j : Nat) (p q q' : Position) (e : MovementError), 1 ≤ j →
      Position.move_to p t (.Right j) = .ok q →
      Position.move_to q t (.Right 1) = .err e q' →
      Position.move_to p t (.Right (j + 1)) = .err e q') := by
  refine ⟨?_, ?_, ?_, ?_⟩
  · intro t n hn hv
    obtain ⟨n', rfl⟩ : ∃ n', n = n' + 1 := ⟨n - 1, by omega⟩
    simp only [Position.move_to]
    rw [if_neg (by omega), leftLoop_succ]
    have hu : leftUnit t ⟨1, 1⟩ = .err .NoPrevLine ⟨1, 1⟩ := by
      unfold leftUnit
      rw [validate_of_valid hv]
      dsimp only
      rw [if_pos rfl, if_neg (by omega)]
    rw [hu]
  · intro t L hL hv
    have hvle : (1 : Nat) ≤ lineLenChars t (L - 1) := hv
    have hcount : L - 1 ≤ t.count '\n' :=
      count_le_of_lineLen_pos t (L - 1) (by omega)
    have hpos : 0 < lineLenChars t (L - 1 - 1) := by
      apply lineLen_pos_of_succ_le
      have he : L - 1 - 1 + 1 = L - 1 := by omega
      rw [he]
      exact hcount
    simp only [Position.move_to]
    rw [if_neg (by omega), leftLoop_one]
    unfold leftUnit
    rw [validate_of_valid hv]
    dsimp only
    rw [if_pos rfl, if_pos (by omega)]
    unfold lineEndCol
    rw [if_neg (show ¬ lineLenChars t (L - 1 - 1) = 0 by omega)]
    have he2 : L - 1 - 1 = L - 2 := by omega
    rw [he2]
  · intro t j p q q' e hj h1 h2
    simp only [Position.move_to] at h1 h2 ⊢
    rw [if_neg (by omega)] at h1
    rw [if_neg (by omega)] at h2
    rw [if_neg (by omega)]
    rw [leftLoop_one] at h2
    have hc := leftLoop_compose j 1 h1
    rw [leftLoop_one] at hc
    rw [hc, h2]
  · intro t j p q q' e hj h1 h2
    simp only [Position.move_to] at h1 h2 ⊢
    rw [if_neg (by omega)] at h1
    rw [if_neg (by omega)] at h2
    rw [if_neg (by omega)]
    rw [rightLoop_one] at h2
    have hc := rightLoop_compose j 1 h1
    rw [rightLoop_one] at hc
    rw [hc, h2]

/-- Witness for claim C5, evaluating each conjunct at concrete inputs on
the documents ab-newline-cd-newline and ab-newline. -/
theorem C5_left_behavior_witness :
    (Position.move_to ⟨1, 1⟩ ("ab\ncd\n".toList) (.Left 2) =
      .err .NoPrevLine ⟨1, 1⟩) ∧
    (Position.move_to ⟨2, 1⟩ ("ab\ncd\n".toList) (.Left 1) =
      .ok ⟨2 - 1, lineLenChars ("ab\ncd\n".toList) (2 - 2)⟩ ∧
      lineLenChars ("ab\ncd\n".toList) (2 - 2) = 3) ∧
    (Position.move_to ⟨1, 2⟩ ("ab\n".toList) (.Left 2) =
      .err .NoPrevLine ⟨1, 1⟩) ∧
    (Position.move_to ⟨1, 2⟩ ("ab\n".toList) (.Right 2) =
      .err .NoNextLine ⟨1, 3⟩) := by
  refine ⟨?_, ⟨?_, by decide⟩, ?_, ?_⟩
  · exact C5_left_behavior.1 ("ab\ncd\n".toList) 2 (by decide) (by decide)
  · exact C5_left_behavior.2.1 ("ab\ncd\n".toList) 2 (by decide) (by decide)
  · exact C5_left_behavior.2.2.1 ("ab\n".toList) 1 ⟨1, 2⟩ ⟨1, 1⟩ ⟨1, 1⟩ .NoPrevLine
      (by decide) (by decide) (by decide)
  · exact C5_left_behavior.2.2.2 ("ab\n".toList) 1 ⟨1, 2⟩ ⟨1, 3⟩ ⟨1, 3⟩ .NoNextLine
      (by decide) (by decide) (by decide)

/-- Claim C6: Down(n) with n at least 1 from a valid well-formed
position: it errs (with NoNextLine, leaving the position untouched)
exactly when no step can be taken at all, that is when the current line
is the last line or the next line is empty; when a first step is
possible it returns Ok; and any Ok result keeps the column, never moves
up, and never lands past the last non-empty line. -/
theorem C6_down_policy (t : List Char) (p : Position) (n : Nat) (hw : p.wf)
    (hv : p.is_valid t) (hn : 1 ≤ n) :
    (Position.move_to p t (.Down n) = .err .NoNextLine p ↔
      (p.line = lenLines t ∨ lineLenChars t p.line = 0)) ∧
    (∀ e q, Position.move_to p t (.Down n) = .err e q → e = .NoNextLine ∧ q = p) ∧
    ((p.line ≠ lenLines t ∧ 0 < lineLenChars t p.line) →
      ∃ q, Position.move_to p t (.Down n) = .ok q) ∧
    (∀ q, Position.move_to p t (.Down n) = .ok q →
      q.column = p.column ∧ p.line ≤ q.line ∧ q.line ≤ lastNonEmptyLine t) := by
  obtain ⟨n', rfl⟩ : ∃ n', n = n' + 1 := ⟨n - 1, by omega⟩
  simp only [Position.move_to]
  rw [if_neg (by omega), downLoop_succ]
  by_cases hg : p.line ≠ lenLines t ∧ 0 < lineLenChars t p.line
  · rw [if_pos hg]
    obtain ⟨qq, hqq⟩ := downLoop_true_ok n' { p with line := p.line + 1 }
    rw [hqq]
    have hl' : 0 < lineLenChars t ({ p with line := p.line + 1 }.line - 1) := by
      show 0 < lineLenChars t (p.line + 1 - 1)
      have he : p.line + 1 - 1 = p.line := by omega
      rw [he]
      exact hg.2
    obtain ⟨hq1, hq2, hq3⟩ := downLoop_ok_facts n' hl' hqq
    have hq2' : qq.column = p.column := hq2
    have hq3' : p.line + 1 ≤ qq.line := hq3
    refine ⟨?_, ?_, ?_, ?_⟩
    · constructor
      · intro hcontr
        cases hcontr
      · rintro (h | h)
        · exact absurd h hg.1
        · omega
    · intro e q hcontr
      cases hcontr
    · intro _
      exact ⟨qq, rfl⟩
    · intro q hq
      injection hq with hq
      subst hq
      exact ⟨hq2', by omega, line_le_lastNonEmpty hq1⟩
  · rw [if_neg hg]
    push_neg at hg
    simp only [Bool.false_eq_true, if_false]
    refine ⟨?_, ?_, ?_, ?_⟩
    · constructor
      · intro _
        by_cases he : p.line = lenLines t
        · exact Or.inl he
        · exact Or.inr (by have := hg he; omega)
      · intro _
        trivial
    · intro e q hq
      injection hq with hq1 hq2
      exact ⟨hq1.symm, hq2.symm⟩
    · intro hcontr
      exact absurd (by have := hg hcontr.1; omega : ¬ 0 < lineLenChars t p.line)
        (by exact fun h => h hcontr.2)
    · intro q hq
      cases hq

/-- Witness for claim C6 on the document ab-newline-cd-newline from
(1,1): Down(5) stops on line 2 (the last non-empty line) with Ok, and
Down(1) from line 2 errs with NoNextLine leaving the position. -/
theorem C6_down_policy_witness :
    (Position.move_to ⟨1, 1⟩ ("ab\ncd\n".toList) (.Down 5) = .ok ⟨2, 1⟩) ∧
    ((⟨2, 1⟩ : Position).column = 1 ∧ (2 : Nat) ≤ lastNonEmptyLine ("ab\ncd\n".toList)) ∧
    (Position.move_to ⟨2, 1⟩ ("ab\ncd\n".toList) (.Down 3) =
      .err .NoNextLine ⟨2, 1⟩) := by
  refine ⟨by decide, ?_, ?_⟩
  · have h := (C6_down_policy ("ab\ncd\n".toList) ⟨1, 1⟩ 5 (by decide) (by decide)
      (by decide)).2.2.2 ⟨2, 1⟩ (by decide)
    exact ⟨h.1, h.2.2⟩
  · exact (C6_down_policy ("ab\ncd\n".toList) ⟨2, 1⟩ 3 (by decide) (by decide)
      (by decide)).1.mpr (by decide)

/-- Claim C2 as frozen is false: deleting the whole selection of the
document a-newline empties the buffer, so the collapsed selection is
repaired by validate_fix, which inserts a newline THROUGH THE HISTORY;
a single undo then merely removes that repair newline, leaving the empty
document rather than the prior text, and the selection stays collapsed
at (1,1) rather than recovering its prior (1,1)-(1,2) bounds. -/
theorem C2_counterexample :
    (Selection.remove_from { start := ⟨1, 1⟩, stop := ⟨1, 2⟩ }
        { path := none, name := "b", content := "a\n".toList, history := ⟨[]⟩ } =
      some ({ start := ⟨1, 1⟩, stop := ⟨1, 1⟩ },
        { path := none, name := "b", content := "\n".toList,
          history := ⟨[.Delete ⟨1, 1⟩ ("a\n".toList), .Insert ⟨1, 1⟩ ['\n']]⟩ })) ∧
    History.undo ⟨[.Delete ⟨1, 1⟩ ("a\n".toList), .Insert ⟨1, 1⟩ ['\n']]⟩
        ("\n".toList) =
      .ok [] ⟨[.Delete ⟨1, 1⟩ ("a\n".toList)]⟩ ∧
    ([] : List Char) ≠ "a\n".toList ∧
    ({ start := ⟨1, 1⟩, stop := ⟨1, 1⟩ } : Selection) ≠
      { start := ⟨1, 1⟩, stop := ⟨1, 2⟩ } := by
  decide

/-- Claim C2, amended: for a selection with both endpoints well formed
and valid, if deleting it leaves the buffer non-empty, then remove_from
succeeds, leaves the selection COLLAPSED to a single position (it does
not recover its prior bounds; the counterexample shows they are lost),
and a single undo restores the exact prior text content and history. -/
theorem C2_amended (buf : BufferData) (sel : Selection)
    (hws : sel.start.wf) (hwe : sel.stop.wf)
    (hvs : sel.start.is_valid buf.content) (hve : sel.stop.is_valid buf.content)
    (hne : ropeRemove buf.content (sel.range_of buf.content).1
        (sel.range_of buf.content).2 ≠ []) :
    ∃ sel' buf', sel.remove_from buf = some (sel', buf') ∧
      sel'.start = sel'.stop ∧
      buf'.content = ropeRemove buf.content (sel.range_of buf.content).1
        (sel.range_of buf.content).2 ∧
      buf'.history.undo buf'.content = .ok buf.content buf.history := by
  have hwos : (sel.order).start.wf := by
    rcases order_endpoints sel with ⟨h1, _⟩ | ⟨h1, _⟩ <;> rw [h1] <;> assumption
  have hvos : (sel.order).start.is_valid buf.content := by
    rcases order_endpoints sel with ⟨h1, _⟩ | ⟨h1, _⟩ <;> rw [h1] <;> assumption
  have hwoe : (sel.order).stop.wf := by
    rcases order_endpoints sel with ⟨_, h2⟩ | ⟨_, h2⟩ <;> rw [h2] <;> assumption
  have hvoe : (sel.order).stop.is_valid buf.content := by
    rcases order_endpoints sel with ⟨_, h2⟩ | ⟨_, h2⟩ <;> rw [h2] <;> assumption
  have ha : (sel.range_of buf.content).1 =
      (sel.order).start.char_of buf.content := rfl
  have hb : (sel.range_of buf.content).2 =
      (sel.order).stop.char_of buf.content + 1 := rfl
  have hab : (sel.range_of buf.content).1 ≤ (sel.range_of buf.content).2 := by
    rw [ha, hb]
    have := char_of_mono hwos hvos (order_not_lt sel)
    omega
  have hble : (sel.range_of buf.content).2 ≤ buf.content.length := by
    rw [hb]
    exact char_of_succ_le_length hwoe hvoe
  have hale : (sel.range_of buf.content).1 ≤ buf.content.length := by omega
  set t' : List Char := ropeRemove buf.content (sel.range_of buf.content).1
    (sel.range_of buf.content).2 with ht'
  set d : Edit := .Delete (sel.order).start
    (ropeSlice buf.content (sel.range_of buf.content).1
      (sel.range_of buf.content).2) with hd
  set buf2 : BufferData :=
    { buf with content := t', history := buf.history.push_back d } with hbuf2
  have hstab : (sel.order).start.char_of t' = (sel.range_of buf.content).1 := by
    rw [ht']
    unfold ropeRemove
    rw [ha]
    exact char_of_replace_suffix hwos hvos
  have hcount : (sel.order).start.line - 1 ≤ t'.count '\n' := by
    rw [ht']
    unfold ropeRemove
    rw [List.count_append, ha]
    have := count_take_char_of hwos hvos
    omega
  obtain ⟨q, hq⟩ := validate_isSome hwos hcount hne
  have hfix : Position.validate_fix (sel.order).start buf2 = some (q, buf2) := by
    rw [validate_fix_eq_validate (show buf2.content ≠ [] from hne)]
    rw [show buf2.content = t' from rfl, hq]
    rfl
  have hrr1 : (sel.order).range_of buf.content = sel.range_of buf.content := by
    unfold Selection.range_of
    rw [order_idem]
  have hrm : sel.remove_from buf = some ({ start := q, stop := q }, buf2) := by
    unfold Selection.remove_from
    rw [selValidate_of_valid hvs hve]
    dsimp only
    unfold History.remove_selection
    dsimp only
    rw [hrr1, ← ht', ← hd, ← hbuf2]
    unfold Selection.validate_fix
    dsimp only
    rw [hfix]
    dsimp only
    rw [hfix]
  have hbound : (sel.range_of buf.content).1 ≤ t'.length := by
    rw [ht']
    exact ropeRemove_length_lower hale
  have hundo : buf2.history.undo buf2.content = .ok buf.content buf.history := by
    show (buf.history.push_back d).undo t' = .ok buf.content buf.history
    unfold History.push_back History.undo
    rw [List.getLast?_concat]
    dsimp only
    rw [hstab]
    rw [if_pos hbound]
    rw [show ropeInsert t' (sel.range_of buf.content).1
        (ropeSlice buf.content (sel.range_of buf.content).1
          (sel.range_of buf.content).2) = buf.content from by
      rw [ht']
      exact ropeInsert_ropeRemove hab hble]
    rw [List.dropLast_concat]
  exact ⟨{ start := q, stop := q }, buf2, hrm, rfl, rfl, hundo⟩

/-- Witness for the amended claim C2: deleting the selection (2,1)-(2,2)
of ab-newline-cd-newline and undoing restores the document. -/
theorem C2_amended_witness :
    ∃ sel' buf',
      Selection.remove_from { start := ⟨2, 1⟩, stop := ⟨2, 2⟩ }
        { path := none, name := "b", content := "ab\ncd\n".toList,
          history := ⟨[]⟩ } = some (sel', buf') ∧
      sel'.start = sel'.stop ∧
      buf'.content = ropeRemove ("ab\ncd\n".toList)
        (Selection.range_of { start := ⟨2, 1⟩, stop := ⟨2, 2⟩ } ("ab\ncd\n".toList)).1
        (Selection.range_of { start := ⟨2, 1⟩, stop := ⟨2, 2⟩ } ("ab\ncd\n".toList)).2 ∧
      buf'.history.undo buf'.content = .ok ("ab\ncd\n".toList) ⟨[]⟩ :=
  C2_amended
    { path := none, name := "b", content := "ab\ncd\n".toList, history := ⟨[]⟩ }
    { start := ⟨2, 1⟩, stop := ⟨2, 2⟩ }
    (by decide) (by decide) (by decide) (by decide) (by decide)

/-- Claim C3 as frozen is false: undo re-validates only the selections
of the window re-read from open_tabs[focused_tab] (the source shadows
the window_id argument there).  In the two-window state stShared both
windows view buffer 0; after the undo shortens line 1 from abc-newline
to bc-newline, window 1 (not focused) keeps its selection at (1,4),
which points past the new line boundary. -/
theorem C3_counterexample :
    undo stShared 0 = some stSharedUndone ∧
    (stSharedUndone.windows.getD 1 default).selections =
      [{ start := ⟨1, 4⟩, stop := ⟨1, 4⟩ }] ∧
    ¬ (⟨1, 4⟩ : Position).is_valid (stSharedUndone.buffers.getD 0 default).content ∧
    stSharedUndone.windows.getD 1 default = stShared.windows.getD 1 default := by
  refine ⟨by decide, by decide, by decide, by decide⟩

/-- Claim C3, amended: after a successful undo (non-empty history, no
panic), the selections of the window found through open_tabs[focused_tab]
have been re-validated — hence are valid against the content of the
buffer that window views — while every other window is left untouched
(selections in other windows viewing the undone buffer are NOT
re-validated). -/
theorem C3_amended (st : EditorData) (window_id : Nat) (st' : EditorData)
    (h : undo st window_id = some st')
    (hne : ∀ w buf, st.windows.get? window_id = some w →
      st.buffers.get? w.buffer = some buf → buf.history.edits ≠ []) :
    ∃ wid2 w2 b2,
      st.open_tabs.get? st.focused_tab = some wid2 ∧
      st'.windows.get? wid2 = some w2 ∧
      st'.buffers.get? w2.buffer = some b2 ∧
      (∀ sel ∈ w2.selections,
        sel.start.is_valid b2.content ∧ sel.stop.is_valid b2.content) ∧
      (∀ i, i ≠ wid2 → st'.windows.get? i = st.windows.get? i) := by
  unfold undo at h
  simp only [bind, Option.bind_eq_some] at h
  obtain ⟨w, hw, buf, hbuf, h⟩ := h
  cases hu : buf.history.undo buf.content with
  | nothingLeft =>
    exfalso
    apply hne w buf hw hbuf
    unfold History.undo at hu
    cases hgl : buf.history.edits.getLast? with
    | none =>
      cases hl : buf.history.edits with
      | nil => rfl
      | cons a rest => rw [hl] at hgl; simp at hgl
    | some e =>
      rw [hgl] at hu
      cases e with
      | Insert p text =>
        dsimp only at hu
        split at hu <;> cases hu
      | Delete p text =>
        dsimp only at hu
        split at hu <;> cases hu
  | panic => rw [hu] at h; cases h
  | ok t2 h2 =>
    rw [hu] at h
    simp only [bind, Option.bind_eq_some] at h
    obtain ⟨wid2, hwid2, w2, hw2, b2, hb2, sels, hsels, hfin⟩ := h
    injection hfin with hfin
    have hlt : wid2 < st.windows.length := by
      have hh := List.get?_eq_some.mp hw2
      obtain ⟨hh1, _⟩ := hh
      simpa using hh1
    refine ⟨wid2, { w2 with selections := sels }, b2, hwid2, ?_, ?_, ?_, ?_⟩
    · rw [← hfin]
      show (st.windows.set wid2 { w2 with selections := sels }).get? wid2 = _
      exact List.get?_set_eq_of_lt _ hlt
    · rw [← hfin]
      exact hb2
    · intro sel hs
      exact validateSelections_valid hsels sel hs
    · intro i hi
      rw [← hfin]
      show (st.windows.set wid2 { w2 with selections := sels }).get? i = _
      exact List.get?_set_ne _ _ (fun he => hi he.symm)

/-- Witness for the amended claim C3 at the concrete two-window state. -/
theorem C3_amended_witness :
    ∃ wid2 w2 b2,
      stShared.open_tabs.get? stShared.focused_tab = some wid2 ∧
      stSharedUndone.windows.get? wid2 = some w2 ∧
      stSharedUndone.buffers.get? w2.buffer = some b2 ∧
      (∀ sel ∈ w2.selections,
        sel.start.is_valid b2.content ∧ sel.stop.is_valid b2.content) ∧
      (∀ i, i ≠ wid2 → stSharedUndone.windows.get? i = stShared.windows.get? i) := by
  apply C3_amended stShared 0 stSharedUndone (by decide)
  intro w buf h1 h2
  rw [show stShared.windows.get? 0 =
      some
        { buffer := 0, mode := .Normal,
          selections := [{ start := ⟨1, 1⟩, stop := ⟨1, 1⟩ }],
          primary_selection := 0, command := "", top := 1 } from by decide] at h1
  injection h1 with h1
  subst h1
  have h2' : stShared.buffers.get? 0 = some buf := h2
  rw [show stShared.buffers.get? 0 =
      some
        { path := none, name := "b", content := "abc\n".toList,
          history := ⟨[.Insert ⟨1, 1⟩ ['a']]⟩ } from by decide] at h2'
  injection h2' with h2'
  subst h2'
  decide

/-- Evaluation of run_command on the write command name: the command is
found in COMMANDS and its handler runs on the focused window. -/
theorem run_command_write (fs : Fs) (st : EditorData) :
    run_command fs st ["write"] =
      match st.open_tabs.get? st.focused_tab with
      | none => none
      | some wid =>
        match st.windows.get? wid with
        | none => none
        | some win =>
          match st.buffers.get? win.buffer with
          | none => none
          | some buf =>
            match buf.path with
            | none => some (st, [], .error "cannot save a scratch buffer")
            | some p => some (st, [(p, buf.content)], .ok ()) := rfl

/-- Claim C8: invoking write while the focused window views a buffer
with no path (the scratch buffer) yields exactly the error
"cannot save a scratch buffer", records no file write, and returns the
editor state unchanged. -/
theorem C8_write_scratch (fs : Fs) (st : EditorData) (wid : Nat) (w : WindowData)
    (buf : BufferData)
    (htab : st.open_tabs.get? st.focused_tab = some wid)
    (hw : st.windows.get? wid = some w)
    (hb : st.buffers.get? w.buffer = some buf)
    (hpath : buf.path = none) :
    run_command fs st ["write"] =
      some (st, ([] : List FileWrite), .error "cannot save a scratch buffer") := by
  rw [run_command_write, htab]
  dsimp only
  rw [hw]
  dsimp only
  rw [hb]
  dsimp only
  rw [hpath]

/-- Witness for claim C8 at the initial editor state. -/
theorem C8_write_scratch_witness :
    run_command [] EditorData.new ["write"] =
      some (EditorData.new, ([] : List FileWrite),
        .error "cannot save a scratch buffer") := by
  apply C8_write_scratch [] EditorData.new 0
    { buffer := 0, mode := .Normal,
      selections := [{ start := ⟨1, 1⟩, stop := ⟨1, 1⟩ }],
      primary_selection := 0, command := "", top := 1 }
    { path := none, name := "scratch", content := ['\n'], history := ⟨[]⟩ }
    (by decide) (by decide) (by decide) (by decide)

/-- Claim C9 as frozen is false for PreviousTab: with three open tabs and
the first tab focused, (focused_tab - 1) underflows usize; with the
release-build wrapping semantics modelled here the result is
(2^64 - 1) mod 3 = 0, so focus stays on tab 0 instead of wrapping to the
last tab (a debug build would panic on the underflow instead). -/
theorem C9_counterexample :
    stThreeTabs.open_tabs.length = 3 ∧ stThreeTabs.focused_tab = 0 ∧
    (do_action [] stThreeTabs (.Editor .PreviousTab)).map
      (fun r => r.1.focused_tab) = some 0 := by
  refine ⟨by decide, by decide, ?_⟩
  show (some ({ stThreeTabs with focused_tab :=
    (stThreeTabs.focused_tab + (usizeSize - 1)) % usizeSize %
      stThreeTabs.open_tabs.length }, ([] : List FileWrite),
    (.ok () : Except String Unit))).map (fun r => r.1.focused_tab) = some 0
  have he : (0 + (usizeSize - 1)) % usizeSize % 3 = 0 := by decide
  simp only [Option.map_some]
  show some ((0 + (usizeSize - 1)) % usizeSize % 3) = some 0
  rw [he]

/-- Claim C9, amended: with a non-empty tab list and a valid focused_tab
(and a tab count below 2^64, as any real usize-indexed list satisfies),
NextTab moves to (focused_tab + 1) mod tab_count — wrapping from the
last tab to the first — and PreviousTab moves one tab left from a
non-first tab; both always leave focused_tab a valid index.  From the
FIRST tab, however, PreviousTab wraps the usize subtraction and lands on
(2^64 - 1) mod tab_count, which is in general not the last tab. -/
theorem C9_amended (fs : Fs) (st : EditorData)
    (hne : st.open_tabs.length ≠ 0)
    (hf : st.focused_tab < st.open_tabs.length)
    (hsz : st.open_tabs.length < usizeSize) :
    do_action fs st (.Editor .NextTab) =
      some ({ st with focused_tab :=
        (st.focused_tab + 1) % st.open_tabs.length }, [], .ok ()) ∧
    (st.focused_tab + 1) % st.open_tabs.length < st.open_tabs.length ∧
    (st.focused_tab = st.open_tabs.length - 1 →
      (st.focused_tab + 1) % st.open_tabs.length = 0) ∧
    do_action fs st (.Editor .PreviousTab) =
      some ({ st with focused_tab :=
        if 1 ≤ st.focused_tab then st.focused_tab - 1
        else (usizeSize - 1) % st.open_tabs.length }, [], .ok ()) ∧
    (if 1 ≤ st.focused_tab then st.focused_tab - 1
      else (usizeSize - 1) % st.open_tabs.length) < st.open_tabs.length := by
  have hU : 0 < usizeSize := by decide
  have hlenpos : 0 < st.open_tabs.length := by omega
  refine ⟨?_, ?_, ?_, ?_, ?_⟩
  · simp only [do_action]
    rw [if_neg hne]
    have he : (st.focused_tab + 1) % usizeSize % st.open_tabs.length =
        (st.focused_tab + 1) % st.open_tabs.length := by
      rw [Nat.mod_eq_of_lt (show st.focused_tab + 1 < usizeSize by omega)]
    rw [he]
  · exact Nat.mod_lt _ hlenpos
  · intro hlast
    rw [hlast]
    have he : st.open_tabs.length - 1 + 1 = st.open_tabs.length := by omega
    rw [he, Nat.mod_self]
  · simp only [do_action]
    rw [if_neg hne]
    by_cases h1 : 1 ≤ st.focused_tab
    · rw [if_pos h1]
      have he : (st.focused_tab + (usizeSize - 1)) % usizeSize %
          st.open_tabs.length = st.focused_tab - 1 := by
        have he2 : st.focused_tab + (usizeSize - 1) =
            (st.focused_tab - 1) + 1 * usizeSize := by omega
        rw [he2, Nat.add_mul_mod_self_right,
          Nat.mod_eq_of_lt (show st.focused_tab - 1 < usizeSize by omega),
          Nat.mod_eq_of_lt (show st.focused_tab - 1 < st.open_tabs.length by omega)]
      rw [he]
    · rw [if_neg h1]
      have h0 : st.focused_tab = 0 := by omega
      rw [h0]
      have he : (0 + (usizeSize - 1)) % usizeSize % st.open_tabs.length =
          (usizeSize - 1) % st.open_tabs.length := by
        rw [Nat.zero_add, Nat.mod_eq_of_lt (show usizeSize - 1 < usizeSize by omega)]
      rw [he]
  · split
    · omega
    · exact Nat.mod_lt _ hlenpos

/-- Witness for the amended claim C9 with three tabs: NextTab from the
last tab wraps to the first, and PreviousTab from tab 1 moves to tab 0. -/
theorem C9_amended_witness :
    do_action [] { stThreeTabs with focused_tab := 2 } (.Editor .NextTab) =
      some ({ stThreeTabs with focused_tab := (2 + 1) % 3 }, [], .ok ()) ∧
    (2 + 1) % 3 = 0 ∧
    do_action [] { stThreeTabs with focused_tab := 1 } (.Editor .PreviousTab) =
      some ({ stThreeTabs with focused_tab :=
        if 1 ≤ 1 then 1 - 1 else (usizeSize - 1) % 3 }, [], .ok ()) := by
  have h1 := C9_amended [] { stThreeTabs with focused_tab := 2 }
    (by decide) (by decide) (by decide)
  have h2 := C9_amended [] { stThreeTabs with focused_tab := 1 }
    (by decide) (by decide) (by decide)
  exact ⟨h1.1, by decide, h2.2.2.2.1⟩

/-- No command handler ever touches an existing window: quit only sets
the quit flag, open appends a fresh window, and write only reads.  So a
run_command that returns (rather than panicking) leaves every existing
windows entry unchanged. -/
theorem run_command_windows_stable (fs : Fs) (st : EditorData) (args : List String)
    {r : EditorData × List FileWrite × Except String Unit}
    (h : run_command fs st args = some r) (wid : Nat)
    (hlt : wid < st.windows.length) :
    r.1.windows.get? wid = st.windows.get? wid := by
  unfold run_command at h
  cases hhd : args.head? with
  | none =>
    rw [hhd] at h
    injection h with h
    rw [← h]
  | some nm =>
    rw [hhd] at h
    dsimp only at h
    cases hfind : COMMANDS.find? (fun c => c.name == nm || c.aliases.contains nm) with
    | none =>
      rw [hfind] at h
      injection h with h
      rw [← h]
    | some cmd =>
      rw [hfind] at h
      dsimp only at h
      cases htab : st.open_tabs.get? st.focused_tab with
      | none => rw [htab] at h; cases h
      | some wid2 =>
        rw [htab] at h
        dsimp only at h
        have hmem := List.mem_of_find?_eq_some hfind
        unfold COMMANDS at hmem
        simp only [List.mem_cons, List.not_mem_nil, or_false] at hmem
        rcases hmem with rfl | rfl | rfl
        · dsimp only at h
          injection h with h
          rw [← h]
          rfl
        · dsimp only at h
          cases ha0 : args.tail.get? 0 with
          | none => rw [ha0] at h; cases h
          | some nm2 =>
            rw [ha0] at h
            dsimp only at h
            cases hfs : fsRead fs nm2 with
            | none =>
              rw [hfs] at h
              injection h with h
              rw [← h]
            | some content =>
              rw [hfs] at h
              dsimp only at h
              injection h with h
              rw [← h]
              show (st.windows ++ [_]).get? wid = st.windows.get? wid
              exact List.get?_append hlt
        · dsimp only at h
          cases hwin : st.windows.get? wid2 with
          | none => rw [hwin] at h; cases h
          | some win =>
            rw [hwin] at h
            dsimp only at h
            cases hbuf : st.buffers.get? win.buffer with
            | none => rw [hbuf] at h; cases h
            | some buf =>
              rw [hbuf] at h
              dsimp only at h
              cases hpath : buf.path with
              | none =>
                rw [hpath] at h
                injection h with h
                rw [← h]
              | some p =>
                rw [hpath] at h
                injection h with h
                rw [← h]

/-- Claim C10: the Return action first empties the focused window's
command line and resets its mode to Normal, and only then tokenizes and
dispatches; since no command handler mutates an existing window, every
non-panicking outcome — parse failure, unknown command, command error or
success — leaves that window in Normal mode with an empty command
line. -/
theorem C10_return_resets (fs : Fs) (st : EditorData) (wid : Nat) (w : WindowData)
    (r : EditorData × List FileWrite × Except String Unit)
    (htab : st.open_tabs.get? st.focused_tab = some wid)
    (hwin : st.windows.get? wid = some w)
    (h : do_action fs st (.Command .Return) = some r) :
    ∃ w', r.1.windows.get? wid = some w' ∧ w'.mode = .Normal ∧ w'.command = "" := by
  simp only [do_action] at h
  rw [htab] at h
  dsimp only at h
  rw [hwin] at h
  dsimp only at h
  have hlt : wid < st.windows.length := by
    have hh := List.get?_eq_some.mp hwin
    obtain ⟨hh1, _⟩ := hh
    simpa using hh1
  have hset : (st.windows.set wid { w with command := "", mode := .Normal }).get? wid
      = some { w with command := "", mode := .Normal } :=
    List.get?_set_eq_of_lt _ hlt
  refine ⟨{ w with command := "", mode := .Normal }, ?_, rfl, rfl⟩
  cases hsh : shlexSplit w.command with
  | none =>
    rw [hsh] at h
    injection h with h
    rw [← h]
    exact hset
  | some toks =>
    rw [hsh] at h
    dsimp only at h
    have hlen : wid < (st.windows.set wid
        { w with command := "", mode := .Normal }).length := by
      rw [List.length_set]
      exact hlt
    have hstable := run_command_windows_stable fs
      { st with windows :=
        st.windows.set wid { w with command := "", mode := .Normal } }
      toks h wid hlen
    rw [hstable]
    exact hset

/-- Witness for claim C10: submitting the unknown command line
badcmd x from the initial state leaves the window in Normal mode with an
empty command line while the dispatch reports the unknown command. -/
theorem C10_return_resets_witness :
    ∃ w', (({ stCommandPending with windows := [
        { buffer := 0, mode := .Normal,
          selections := [{ start := ⟨1, 1⟩, stop := ⟨1, 1⟩ }],
          primary_selection := 0, command := "", top := 1 }] },
      ([] : List FileWrite),
      (.error "command badcmd does not exist" : Except String Unit)) :
        EditorData × List FileWrite × Except String Unit).1.windows.get? 0 =
      some w' ∧ w'.mode = .Normal ∧ w'.command = "" := by
  have h : do_action [] stCommandPending (.Command .Return) =
      some (({ stCommandPending with windows := [
          { buffer := 0, mode := .Normal,
            selections := [{ start := ⟨1, 1⟩, stop := ⟨1, 1⟩ }],
            primary_selection := 0, command := "", top := 1 }] },
        ([] : List FileWrite),
        (.error "command badcmd does not exist" : Except String Unit)) :
          EditorData × List FileWrite × Except String Unit) := rfl
  exact C10_return_resets [] stCommandPending 0
    { buffer := 0, mode := .Command,
      selections := [{ start := ⟨1, 1⟩, stop := ⟨1, 1⟩ }],
      primary_selection := 0, command := "badcmd x", top := 1 }
    _ (by decide) (by decide) h

end Edot
